import Mathlib

/-!
# Verification of the arazzo-engine core against its specification

Shallow embedding of the arazzo-engine runner core: JSON values, the
schema resolver / merger of the OpenAPI extractor, the depth limiter,
operation input extraction, the regex transform pipeline, the workflow
execution state machine, and the environment-variable sanitizer of
`arazzo_runner/utils.py`.

Components whose implementation sources are not part of the source tree
(the extractor, the expression evaluator and the workflow engine) are
modelled from the specification; their doc comments start with
`Modelled from the spec:`.  `sanitize_for_env_var` is embedded directly
from `src/runner/arazzo_runner/utils.py`.
-/

namespace Arazzo

/-- JSON values, the data model every component operates on.  Objects are
association lists in insertion order, matching Python `dict` semantics. -/
inductive JVal where
  | jbool : Bool → JVal
  | jnum : Int → JVal
  | jstr : String → JVal
  | jnull : JVal
  | jarr : List JVal → JVal
  | jobj : List (String × JVal) → JVal

/-- First value bound to `k` in an association list (Python `dict` lookup). -/
def lookupField (fields : List (String × JVal)) (k : String) : Option JVal :=
  match fields with
  | [] => none
  | (k', v) :: rest => if k' = k then some v else lookupField rest k

/-- Remove every binding of `k` (Python `dict` key deletion). -/
def removeField (fields : List (String × JVal)) (k : String) : List (String × JVal) :=
  fields.filter (fun p => p.1 ≠ k)

/-! ## `sanitize_for_env_var` (src/runner/arazzo_runner/utils.py)

The Python function upper-cases, replaces every character outside
`[A-Z0-9_]` with `_`, collapses runs of `_`, and strips `_` from both
ends.  We embed it character-for-character on `List Char`; `Char.toUpper`
models Python `str.upper` (they agree on ASCII, and any character on
which they could disagree is replaced by `_` anyway). -/

/-- A character admissible in an environment variable name: `A`-`Z`,
`0`-`9` or `_`. -/
def isEnvChar (c : Char) : Prop :=
  ('A' ≤ c ∧ c ≤ 'Z') ∨ ('0' ≤ c ∧ c ≤ '9') ∨ c = '_'

instance (c : Char) : Decidable (isEnvChar c) := by
  unfold isEnvChar; infer_instance

/-- One character of `sanitize_for_env_var`: upper-case, then replace
anything outside `[A-Z0-9_]` with `_` (`re.sub(r"[^A-Z0-9_]", "_", ...)`
after `.upper()`). -/
def sanChar (c : Char) : Char :=
  let u := c.toUpper
  if isEnvChar u then u else '_'

/-- `re.sub(r"_+", "_", ...)`: collapse each run of underscores to one.
The flag records whether the previous emitted character was `_`. -/
def collapseUnderscores : Bool → List Char → List Char
  | _, [] => []
  | true, c :: rest =>
    if c = '_' then collapseUnderscores true rest
    else c :: collapseUnderscores false rest
  | false, c :: rest =>
    if c = '_' then '_' :: collapseUnderscores true rest
    else c :: collapseUnderscores false rest

/-- Python `str.strip("_")`: drop underscores from both ends. -/
def stripUnderscores (l : List Char) : List Char :=
  ((l.dropWhile (· = '_')).reverse.dropWhile (· = '_')).reverse

/-- Embedding of `sanitize_for_env_var` from `arazzo_runner/utils.py`. -/
def sanitize_for_env_var (s : String) : String :=
  ⟨stripUnderscores (collapseUnderscores false (s.data.map sanChar))⟩

/-- Embedding of `create_env_var_name` from `arazzo_runner/utils.py`. -/
def create_env_var_name (varName : String) (prefixName : Option String) : String :=
  match prefixName with
  | none => sanitize_for_env_var varName
  | some p => sanitize_for_env_var p ++ "_" ++ sanitize_for_env_var varName

/-- No two consecutive underscores. -/
def noDoubleUnderscore (l : List Char) : Prop :=
  l.Chain' (fun a b => ¬(a = '_' ∧ b = '_'))

theorem char_toNat_le_of_le {a b : Char} (h : a ≤ b) : a.toNat ≤ b.toNat := by
  rw [Char.le_def, UInt32.le_def, BitVec.le_def] at h
  exact h

theorem isEnvChar_sanChar (c : Char) : isEnvChar (sanChar c) := by
  show isEnvChar (if isEnvChar c.toUpper then c.toUpper else '_')
  split
  · assumption
  · right; right; rfl

theorem toUpper_of_isEnvChar {c : Char} (h : isEnvChar c) : c.toUpper = c := by
  have hlt : c.toNat < 97 := by
    rcases h with ⟨_, h2⟩ | ⟨_, h2⟩ | h2
    · have h3 := char_toNat_le_of_le h2
      have hz : ('Z').toNat = 90 := rfl
      omega
    · have h3 := char_toNat_le_of_le h2
      have hz : ('9').toNat = 57 := rfl
      omega
    · subst h2; decide
  show (if c.toNat ≥ 97 ∧ c.toNat ≤ 122 then Char.ofNat (c.toNat - 32) else c) = c
  rw [if_neg (by omega)]

theorem sanChar_of_isEnvChar {c : Char} (h : isEnvChar c) : sanChar c = c := by
  show (if isEnvChar c.toUpper then c.toUpper else '_') = c
  rw [toUpper_of_isEnvChar h, if_pos h]

theorem mem_collapseUnderscores {c : Char} :
    ∀ (b : Bool) (l : List Char), c ∈ collapseUnderscores b l → c ∈ l
  | _, [], h => by simp [collapseUnderscores] at h
  | true, x :: rest, h => by
    unfold collapseUnderscores at h
    by_cases hx : x = '_'
    · rw [if_pos hx] at h
      exact List.mem_cons_of_mem _ (mem_collapseUnderscores _ _ h)
    · rw [if_neg hx] at h
      rcases List.mem_cons.mp h with h1 | h1
      · simp [h1]
      · exact List.mem_cons_of_mem _ (mem_collapseUnderscores _ _ h1)
  | false, x :: rest, h => by
    unfold collapseUnderscores at h
    by_cases hx : x = '_'
    · rw [if_pos hx] at h
      rcases List.mem_cons.mp h with h1 | h1
      · simp [h1, hx]
      · exact List.mem_cons_of_mem _ (mem_collapseUnderscores _ _ h1)
    · rw [if_neg hx] at h
      rcases List.mem_cons.mp h with h1 | h1
      · simp [h1]
      · exact List.mem_cons_of_mem _ (mem_collapseUnderscores _ _ h1)

theorem head?_collapseUnderscores_true :
    ∀ (l : List Char) (c : Char), (collapseUnderscores true l).head? = some c → c ≠ '_'
  | [], c, h => by simp [collapseUnderscores] at h
  | x :: rest, c, h => by
    unfold collapseUnderscores at h
    by_cases hx : x = '_'
    · rw [if_pos hx] at h
      exact head?_collapseUnderscores_true rest c h
    · rw [if_neg hx] at h
      simp only [List.head?_cons, Option.some.injEq] at h
      exact h ▸ hx

theorem chain'_collapseUnderscores :
    ∀ (b : Bool) (l : List Char), noDoubleUnderscore (collapseUnderscores b l)
  | b, [] => by cases b <;> exact List.chain'_nil
  | true, x :: rest => by
    unfold collapseUnderscores
    by_cases hx : x = '_'
    · rw [if_pos hx]
      exact chain'_collapseUnderscores true rest
    · rw [if_neg hx]
      rw [noDoubleUnderscore, List.chain'_cons']
      refine ⟨?_, chain'_collapseUnderscores false rest⟩
      intro y _ hcontra
      exact hx hcontra.1
  | false, x :: rest => by
    unfold collapseUnderscores
    by_cases hx : x = '_'
    · rw [if_pos hx]
      rw [noDoubleUnderscore, List.chain'_cons']
      refine ⟨?_, chain'_collapseUnderscores true rest⟩
      intro y hy hcontra
      exact head?_collapseUnderscores_true rest y hy hcontra.2
    · rw [if_neg hx]
      rw [noDoubleUnderscore, List.chain'_cons']
      refine ⟨?_, chain'_collapseUnderscores false rest⟩
      intro y _ hcontra
      exact hx hcontra.1

theorem mem_stripUnderscores {c : Char} {l : List Char} (h : c ∈ stripUnderscores l) :
    c ∈ l := by
  unfold stripUnderscores at h
  rw [List.mem_reverse] at h
  have h1 := (List.dropWhile_suffix (l := (l.dropWhile (· = '_')).reverse) (· = '_')).subset h
  rw [List.mem_reverse] at h1
  exact (List.dropWhile_suffix (· = '_')).subset h1

theorem chain'_stripUnderscores {l : List Char} (h : noDoubleUnderscore l) :
    noDoubleUnderscore (stripUnderscores l) := by
  unfold stripUnderscores
  have h1 : noDoubleUnderscore (l.dropWhile (· = '_')) :=
    List.Chain'.suffix h (List.dropWhile_suffix _)
  have h2 : noDoubleUnderscore (l.dropWhile (· = '_')).reverse := by
    rw [noDoubleUnderscore, List.chain'_reverse]
    exact List.Chain'.imp (fun a b hr hc => hr ⟨hc.2, hc.1⟩) h1
  have h3 : noDoubleUnderscore ((l.dropWhile (· = '_')).reverse.dropWhile (· = '_')) :=
    List.Chain'.suffix h2 (List.dropWhile_suffix _)
  rw [noDoubleUnderscore, List.chain'_reverse]
  exact List.Chain'.imp (fun a b hr hc => hr ⟨hc.2, hc.1⟩) h3

theorem head?_stripUnderscores {l : List Char} {c : Char}
    (h : (stripUnderscores l).head? = some c) : c ≠ '_' := by
  unfold stripUnderscores at h
  set A := l.dropWhile (· = '_') with hA
  set B := A.reverse.dropWhile (· = '_') with hB
  obtain ⟨t, ht⟩ := List.dropWhile_suffix (l := A.reverse) (· = '_')
  have hAeq : A = B.reverse ++ t.reverse := by
    have := congrArg List.reverse ht
    rw [List.reverse_append, List.reverse_reverse] at this
    exact this.symm
  cases hBr : B.reverse with
  | nil => rw [hBr] at h; simp at h
  | cons hd tl =>
    rw [hBr] at h
    simp only [List.head?_cons, Option.some.injEq] at h
    have hhead : A.head? = some hd := by rw [hAeq, hBr]; rfl
    have hdw := List.head?_dropWhile_not (fun x => decide (x = '_')) l
    rw [← hA] at hdw
    rw [hhead] at hdw
    simp only [decide_eq_false_iff_not] at hdw
    exact h ▸ hdw

theorem getLast?_stripUnderscores {l : List Char} {c : Char}
    (h : (stripUnderscores l).getLast? = some c) : c ≠ '_' := by
  unfold stripUnderscores at h
  rw [List.getLast?_reverse] at h
  have hdw := List.head?_dropWhile_not (fun x => decide (x = '_'))
    (l.dropWhile (· = '_')).reverse
  rw [h] at hdw
  simp only [decide_eq_false_iff_not] at hdw
  exact hdw

theorem collapseUnderscores_id :
    ∀ l : List Char, noDoubleUnderscore l →
      collapseUnderscores false l = l ∧ (l.head? ≠ some '_' → collapseUnderscores true l = l)
  | [], _ => ⟨rfl, fun _ => rfl⟩
  | x :: rest, h => by
    have hrest : noDoubleUnderscore rest := (List.chain'_cons'.mp h).2
    have hjunc := (List.chain'_cons'.mp h).1
    by_cases hx : x = '_'
    · subst hx
      have hhd : rest.head? ≠ some '_' := fun hh => hjunc '_' hh ⟨rfl, rfl⟩
      have ht := (collapseUnderscores_id rest hrest).2 hhd
      refine ⟨?_, ?_⟩
      · unfold collapseUnderscores
        rw [if_pos rfl, ht]
      · intro hc
        exact absurd rfl hc
    · have hf := (collapseUnderscores_id rest hrest).1
      refine ⟨?_, fun _ => ?_⟩ <;>
        (unfold collapseUnderscores; rw [if_neg hx, hf])

theorem dropWhile_underscore_id {l : List Char} (h : l.head? ≠ some '_') :
    l.dropWhile (· = '_') = l := by
  cases l with
  | nil => rfl
  | cons x rest =>
    have hx : x ≠ '_' := fun he => h (by rw [List.head?_cons, he])
    simp [List.dropWhile_cons, hx]

theorem stripUnderscores_id {l : List Char} (h1 : l.head? ≠ some '_')
    (h2 : l.getLast? ≠ some '_') : stripUnderscores l = l := by
  unfold stripUnderscores
  rw [dropWhile_underscore_id h1]
  have h3 : l.reverse.head? ≠ some '_' := by rw [List.head?_reverse]; exact h2
  rw [dropWhile_underscore_id h3, List.reverse_reverse]

theorem map_sanChar_id {l : List Char} (h : ∀ c ∈ l, isEnvChar c) :
    l.map sanChar = l := by
  induction l with
  | nil => rfl
  | cons x rest ih =>
    rw [List.map_cons, sanChar_of_isEnvChar (h x (List.mem_cons_self _ _)),
      ih (fun c hc => h c (List.mem_cons_of_mem _ hc))]

/-- **C10.** For every input string `s`, `sanitize_for_env_var s` contains only
the characters `A`-`Z`, `0`-`9` and underscore, contains no run of two or
more consecutive underscores, and neither starts nor ends with an
underscore; consequently the function is idempotent. -/
theorem sanitize_for_env_var_charset_and_idempotent (s : String) :
    (∀ c ∈ (sanitize_for_env_var s).data, isEnvChar c) ∧
    noDoubleUnderscore (sanitize_for_env_var s).data ∧
    (sanitize_for_env_var s).data.head? ≠ some '_' ∧
    (sanitize_for_env_var s).data.getLast? ≠ some '_' ∧
    sanitize_for_env_var (sanitize_for_env_var s) = sanitize_for_env_var s := by
  have hdata : (sanitize_for_env_var s).data
      = stripUnderscores (collapseUnderscores false (s.data.map sanChar)) := rfl
  have hmem : ∀ c ∈ (sanitize_for_env_var s).data, isEnvChar c := by
    rw [hdata]
    intro c hc
    have h1 := mem_collapseUnderscores _ _ (mem_stripUnderscores hc)
    obtain ⟨a, _, ha⟩ := List.mem_map.mp h1
    exact ha ▸ isEnvChar_sanChar a
  have hchain : noDoubleUnderscore (sanitize_for_env_var s).data := by
    rw [hdata]
    exact chain'_stripUnderscores (chain'_collapseUnderscores false _)
  have hhead : (sanitize_for_env_var s).data.head? ≠ some '_' := by
    rw [hdata]
    intro hh
    exact head?_stripUnderscores hh rfl
  have hlast : (sanitize_for_env_var s).data.getLast? ≠ some '_' := by
    rw [hdata]
    intro hh
    exact getLast?_stripUnderscores hh rfl
  refine ⟨hmem, hchain, hhead, hlast, ?_⟩
  show (⟨stripUnderscores (collapseUnderscores false
    ((sanitize_for_env_var s).data.map sanChar))⟩ : String) = sanitize_for_env_var s
  rw [map_sanChar_id hmem, (collapseUnderscores_id _ hchain).1,
    stripUnderscores_id hhead hlast]

/-- Witness for **C10**: the idempotence component applied at a concrete
input (`"my-api key!"`, which sanitizes to `"MY_API_KEY"`). -/
theorem sanitize_for_env_var_charset_and_idempotent_witness :
    sanitize_for_env_var (sanitize_for_env_var "my-api key!")
      = sanitize_for_env_var "my-api key!" ∧
    sanitize_for_env_var "my-api key!" = "MY_API_KEY" :=
  ⟨(sanitize_for_env_var_charset_and_idempotent "my-api key!").2.2.2.2, by decide⟩

/-! ## `merge_json_schemas` (extractor)

The extractor implementation (`arazzo_runner/extractor/openapi_extractor.py`)
is not part of the source tree, only its tests are; the functions below are
modelled from §4.1/§4.1a of the specification. -/

/-- Whether a value is a boolean JSON schema. -/
def isJBool : JVal → Bool
  | .jbool _ => true
  | _ => false

/-- Whether an object schema declares `additionalProperties: false`
(a "closed" schema). -/
def hasAdditionalPropertiesFalse (v : JVal) : Bool :=
  match v with
  | .jobj fields =>
    match lookupField fields "additionalProperties" with
    | some (.jbool false) => true
    | _ => false
  | _ => false

/-- Union of two association lists: base entries (overridden by same-named
addition entries) followed by the addition's new entries — Python
`{**base, **addition}`. -/
def unionFields (bf af : List (String × JVal)) : List (String × JVal) :=
  bf.map (fun p => (p.1, (lookupField af p.1).getD p.2))
    ++ af.filter (fun p => (lookupField bf p.1).isNone)

/-- Replace the value bound to `k`, keeping position (no-op if absent). -/
def setField (fields : List (String × JVal)) (k : String) (v : JVal) :
    List (String × JVal) :=
  fields.map fun p => if p.1 = k then (k, v) else p

/-- Whether a `required` array already contains the string `s`. -/
def containsStr (xs : List JVal) (s : String) : Bool :=
  xs.any fun v => match v with | .jstr t => t = s | _ => false

/-- Union of two `required` arrays with duplicates removed. -/
def unionRequired (b a : List JVal) : List JVal :=
  b ++ a.filter fun v => match v with
    | .jstr s => ¬ containsStr b s
    | _ => true

/-- Modelled from the spec: the structural part of `merge_json_schemas`
(spec §4.1a) — refuse the merge if either operand is closed, otherwise
union `properties` (addition overrides), union `required` (duplicates
removed) and let all other addition keys override base keys. -/
def mergeStructural (base addition : JVal) : JVal :=
  match base, addition with
  | .jobj bf, .jobj af =>
    if hasAdditionalPropertiesFalse (.jobj bf) then .jobj bf
    else if hasAdditionalPropertiesFalse (.jobj af) then .jobj af
    else
      let m0 := unionFields bf af
      let m1 := match lookupField bf "properties", lookupField af "properties" with
        | some (.jobj bp), some (.jobj ap) =>
          setField m0 "properties" (.jobj (unionFields bp ap))
        | _, _ => m0
      let m2 := match lookupField bf "required", lookupField af "required" with
        | some (.jarr bq), some (.jarr aq) =>
          setField m1 "required" (.jarr (unionRequired bq aq))
        | _, _ => m1
      .jobj m2
  | _, a => a

/-- Modelled from the spec: `merge_json_schemas` (spec §4.1a) — boolean
schemas are absorbing (`true` wins over `false`), then the structural
merge applies. -/
def mergeJson (base addition : JVal) : JVal :=
  match base, addition with
  | .jbool true, _ => .jbool true
  | _, .jbool true => .jbool true
  | .jbool false, _ => .jbool false
  | _, .jbool false => .jbool false
  | b, a => mergeStructural b a

/-- **C3.** Boolean operands of `merge_json_schemas`: if either operand is
`true` the result is `true`; otherwise if either operand is `false` the
result is `false`; only when neither operand is boolean does structural
merging proceed — plus the seven concrete instances from the test suite. -/
theorem merge_json_schemas_boolean_absorbing :
    (∀ a b : JVal, a = .jbool true ∨ b = .jbool true →
      mergeJson a b = .jbool true) ∧
    (∀ a b : JVal, a ≠ .jbool true → b ≠ .jbool true →
      (a = .jbool false ∨ b = .jbool false) → mergeJson a b = .jbool false) ∧
    (∀ a b : JVal, isJBool a = false → isJBool b = false →
      mergeJson a b = mergeStructural a b) ∧
    mergeJson (.jbool true) (.jobj [("type", .jstr "string")]) = .jbool true ∧
    mergeJson (.jbool false) (.jobj [("type", .jstr "string")]) = .jbool false ∧
    mergeJson (.jobj [("type", .jstr "string")]) (.jbool true) = .jbool true ∧
    mergeJson (.jobj [("type", .jstr "string")]) (.jbool false) = .jbool false ∧
    mergeJson (.jbool true) (.jbool true) = .jbool true ∧
    mergeJson (.jbool false) (.jbool false) = .jbool false ∧
    mergeJson (.jbool true) (.jbool false) = .jbool true := by
  refine ⟨?_, ?_, ?_, rfl, rfl, rfl, rfl, rfl, rfl, rfl⟩
  · rintro a b (rfl | rfl)
    · cases b with
      | jbool bb => cases bb <;> rfl
      | jnum n => rfl
      | jstr t => rfl
      | jnull => rfl
      | jarr xs => rfl
      | jobj fs => rfl
    · cases a with
      | jbool ab => cases ab <;> rfl
      | jnum n => rfl
      | jstr t => rfl
      | jnull => rfl
      | jarr xs => rfl
      | jobj fs => rfl
  · rintro a b ha hb (rfl | rfl)
    · cases b with
      | jbool bb =>
        cases bb with
        | false => rfl
        | true => exact absurd rfl hb
      | jnum n => rfl
      | jstr t => rfl
      | jnull => rfl
      | jarr xs => rfl
      | jobj fs => rfl
    · cases a with
      | jbool ab =>
        cases ab with
        | false => rfl
        | true => exact absurd rfl ha
      | jnum n => rfl
      | jstr t => rfl
      | jnull => rfl
      | jarr xs => rfl
      | jobj fs => rfl
  · intro a b ha hb
    cases a <;> cases b <;> first | rfl | (simp [isJBool] at ha hb)

/-- Witness for **C3**: the universal components applied at concrete
operands. -/
theorem merge_json_schemas_boolean_absorbing_witness :
    mergeJson (.jbool true) (.jobj []) = .jbool true ∧
    mergeJson (.jobj []) (.jbool false) = .jbool false ∧
    mergeJson (.jobj []) (.jnull) = mergeStructural (.jobj []) (.jnull) :=
  ⟨merge_json_schemas_boolean_absorbing.1 _ _ (Or.inl rfl),
   merge_json_schemas_boolean_absorbing.2.1 (.jobj []) (.jbool false)
     (fun h => nomatch h) (fun h => nomatch h) (Or.inr rfl),
   merge_json_schemas_boolean_absorbing.2.2.1 _ _ rfl rfl⟩

/-- The base operand of the `additionalProperties: false` merge example
(test `test_merge_json_schemas_additional_properties_false_constraint`). -/
def apFalseBase : JVal :=
  .jobj [("type", .jstr "object"),
         ("properties", .jobj [("name", .jobj [("type", .jstr "string")])]),
         ("additionalProperties", .jbool false)]

/-- The addition operand of the `additionalProperties: false` merge
example. -/
def apFalseAddition : JVal :=
  .jobj [("properties",
          .jobj [("email", .jobj [("type", .jstr "string"),
                                  ("format", .jstr "email")])])]

/-- **C2** (counterexample): merging a closed base with an addition does
*not* return the base's counterpart (the addition) — it returns the closed
base itself. -/
theorem merge_json_schemas_closed_returns_counterpart_false :
    mergeJson apFalseBase apFalseAddition = apFalseBase ∧
    mergeJson apFalseBase apFalseAddition ≠ apFalseAddition := by
  refine ⟨rfl, ?_⟩
  intro h
  rw [show mergeJson apFalseBase apFalseAddition = apFalseBase from rfl] at h
  injection h with h1
  injection h1 with h2 h3
  injection h3

/-- **C2** (amended): if either operand of `merge_json_schemas` declares
`additionalProperties == false`, no structural merge is performed and that
closed operand itself is returned unchanged (base checked first); in
particular, merging the closed base with the addition of the claim yields
the base unchanged. -/
theorem merge_json_schemas_additional_properties_false_refusal :
    (∀ bf af : List (String × JVal),
      hasAdditionalPropertiesFalse (.jobj bf) = true →
        mergeJson (.jobj bf) (.jobj af) = .jobj bf) ∧
    (∀ bf af : List (String × JVal),
      hasAdditionalPropertiesFalse (.jobj bf) = false →
      hasAdditionalPropertiesFalse (.jobj af) = true →
        mergeJson (.jobj bf) (.jobj af) = .jobj af) ∧
    mergeJson apFalseBase apFalseAddition = apFalseBase := by
  refine ⟨?_, ?_, rfl⟩
  · intro bf af hb
    show mergeStructural (.jobj bf) (.jobj af) = .jobj bf
    simp only [mergeStructural]
    rw [if_pos hb]
  · intro bf af hb ha
    show mergeStructural (.jobj bf) (.jobj af) = .jobj af
    simp only [mergeStructural]
    rw [if_neg (fun hc => by rw [hb] at hc; exact Bool.false_ne_true hc), if_pos ha]

/-- Witness for **C2**: the refusal components applied at the concrete
operands of the test suite (closed base, then closed addition). -/
theorem merge_json_schemas_additional_properties_false_refusal_witness :
    mergeJson apFalseBase apFalseAddition = apFalseBase ∧
    mergeJson (.jobj [("type", .jstr "object"),
                      ("properties", .jobj [("name", .jobj [("type", .jstr "string")])])])
      (.jobj [("properties", .jobj [("email", .jobj [("type", .jstr "string")])]),
              ("additionalProperties", .jbool false)])
      = .jobj [("properties", .jobj [("email", .jobj [("type", .jstr "string")])]),
               ("additionalProperties", .jbool false)] :=
  ⟨merge_json_schemas_additional_properties_false_refusal.1
      [("type", .jstr "object"),
       ("properties", .jobj [("name", .jobj [("type", .jstr "string")])]),
       ("additionalProperties", .jbool false)]
      [("properties",
        .jobj [("email", .jobj [("type", .jstr "string"), ("format", .jstr "email")])])]
      rfl,
   merge_json_schemas_additional_properties_false_refusal.2.1 _ _ rfl rfl⟩


/-! ## Schema resolution (extractor)

`resolve_schema` / `_resolve_schema_refs` are modelled from §4.1 of the
specification: `$ref` lookup in the component registry with an explicit
in-progress key set (cycle guard), `allOf` folding via `mergeJson`,
structural preservation of `oneOf`/`anyOf`, recursion through
`properties` / `items` / `additionalProperties`, and degradation to the
unresolved node for malformed `$ref` targets. -/

/-- Boolean schemas normalize to `{}` (`true`, accepts anything) and
`{"not": {}}` (`false`, accepts nothing). -/
def boolSchema : Bool → JVal
  | true => .jobj []
  | false => .jobj [("not", .jobj [])]

/-- Strip a leading pattern from a character list, or fail. -/
def dropPrefixChars : List Char → List Char → Option (List Char)
  | [], s => some s
  | _, [] => none
  | p :: ps, c :: cs => if p = c then dropPrefixChars ps cs else none

/-- The component name of a `#/components/schemas/<Name>` reference. -/
def schemaRefName (r : String) : Option String :=
  (dropPrefixChars "#/components/schemas/".data r.data).map fun cs => ⟨cs⟩

/-- The document's component registry (`components.schemas`). -/
def registry (doc : JVal) : List (String × JVal) :=
  match doc with
  | .jobj f =>
    match lookupField f "components" with
    | some (.jobj cf) =>
      match lookupField cf "schemas" with
      | some (.jobj sf) => sf
      | _ => []
    | _ => []
  | _ => []

/-- The `$ref` string of a schema object, if it has one. -/
def refStrOf (fields : List (String × JVal)) : Option String :=
  match lookupField fields "$ref" with
  | some (.jstr r) => some r
  | _ => none

/-- Number of registry component names not yet in the in-progress set:
the part of the resolution measure that shrinks when a `$ref` is
followed. -/
def unvisitedCount (doc : JVal) (visited : List String) : Nat :=
  (((registry doc).map Prod.fst).filter (fun n => !(visited.contains n))).length

theorem length_filter_lt_of_mem_unvisited {l : List String} {n : String}
    {visited : List String} (hn : n ∈ l) (hv : visited.contains n = false) :
    (l.filter (fun x => !((n :: visited).contains x))).length
      < (l.filter (fun x => !(visited.contains x))).length := by
  induction l with
  | nil => simp at hn
  | cons a l ih =>
    have hmono : ∀ (m : List String), (m.filter (fun x => !((n :: visited).contains x))).length
        ≤ (m.filter (fun x => !(visited.contains x))).length := by
      intro m
      apply List.Sublist.length_le
      apply List.monotone_filter_right
      intro x hx
      simp only [List.contains_cons, Bool.not_eq_true', Bool.or_eq_false_iff] at hx ⊢
      exact hx.2
    by_cases han : a = n
    · subst han
      have h1 : (!((a :: visited).contains a)) = false := by
        rw [List.contains_cons]
        simp
      have h2 : (!(visited.contains a)) = true := by rw [hv]; rfl
      rw [List.filter_cons, h1, List.filter_cons, h2]
      simp only [List.length_cons]
      exact Nat.lt_succ_of_le (hmono l)
    · have hn' : n ∈ l := by
        rcases List.mem_cons.mp hn with h | h
        · exact absurd h.symm han
        · exact h
      rw [List.filter_cons, List.filter_cons]
      by_cases hva : visited.contains a
      · have h1 : (!((n :: visited).contains a)) = false := by
          rw [List.contains_cons, hva]
          simp
        have h2 : (!(visited.contains a)) = false := by rw [hva]; rfl
        rw [h1, h2]
        exact ih hn'
      · have hvab : visited.contains a = false := by
          simpa using hva
        have hab : (a == n) = false := beq_eq_false_iff_ne.mpr han
        have h1 : (!((n :: visited).contains a)) = true := by
          rw [List.contains_cons, hvab, hab]
          rfl
        have h2 : (!(visited.contains a)) = true := by rw [hvab]; rfl
        rw [h1, h2]
        simp only [List.length_cons]
        exact Nat.succ_lt_succ (ih hn')

theorem mem_map_fst_of_lookupField {fields : List (String × JVal)} {k : String} {v : JVal}
    (h : lookupField fields k = some v) : k ∈ fields.map Prod.fst := by
  induction fields with
  | nil => simp [lookupField] at h
  | cons p rest ih =>
    rw [lookupField] at h
    split at h
    · rename_i heq
      simp [← heq]
    · simp [ih h]

theorem unvisitedCount_follow_lt {doc : JVal} {visited : List String} {name : String}
    {target : JVal} (hreg : lookupField (registry doc) name = some target)
    (hv : ¬(visited.contains name = true)) :
    unvisitedCount doc (name :: visited) < unvisitedCount doc visited :=
  length_filter_lt_of_mem_unvisited (mem_map_fst_of_lookupField hreg)
    (by simpa using hv)

theorem sizeOf_snd_lt_of_mem {fields : List (String × JVal)} {p : String × JVal}
    (h : p ∈ fields) : sizeOf p.2 < sizeOf fields := by
  have h1 := List.sizeOf_lt_of_mem h
  have h2 : sizeOf p.2 < sizeOf p := by
    cases p with
    | mk a b =>
      simp only [Prod.mk.sizeOf_spec]
      omega
  omega

theorem sizeOf_lookupField : ∀ {fields : List (String × JVal)} {k : String} {v : JVal},
    lookupField fields k = some v → sizeOf v < sizeOf fields
  | [], k, v, h => by simp [lookupField] at h
  | (a, b) :: rest, k, v, h => by
    rw [lookupField] at h
    split at h
    · injection h with h'
      subst h'
      simp only [List.cons.sizeOf_spec, Prod.mk.sizeOf_spec]
      omega
    · have h2 := sizeOf_lookupField h
      simp only [List.cons.sizeOf_spec, Prod.mk.sizeOf_spec]
      omega

theorem sizeOf_filter_le (p : String × JVal → Bool) (l : List (String × JVal)) :
    sizeOf (l.filter p) ≤ sizeOf l := by
  induction l with
  | nil => simp
  | cons a rest ih =>
    rw [List.filter_cons]
    split
    · simp only [List.cons.sizeOf_spec]
      omega
    · simp only [List.cons.sizeOf_spec]
      omega

theorem sizeOf_removeField_le (fields : List (String × JVal)) (k : String) :
    sizeOf (removeField fields k) ≤ sizeOf fields :=
  sizeOf_filter_le _ fields

theorem sizeOf_removeField_lt : ∀ {fields : List (String × JVal)} {k : String} {v : JVal},
    lookupField fields k = some v → sizeOf (removeField fields k) < sizeOf fields
  | [], k, v, h => by simp [lookupField] at h
  | (a, b) :: rest, k, v, h => by
    rw [lookupField] at h
    unfold removeField
    rw [List.filter_cons]
    split at h
    · rename_i heq
      have hpred : (decide ((a, b).1 ≠ k)) = false := by simp [heq]
      rw [hpred, if_neg Bool.false_ne_true]
      have h1 := sizeOf_filter_le (fun p => decide (p.1 ≠ k)) rest
      simp only [List.cons.sizeOf_spec]
      omega
    · rename_i hne
      have hpred : (decide ((a, b).1 ≠ k)) = true := by simp [hne]
      rw [hpred, if_pos rfl]
      have h2 := sizeOf_removeField_lt h
      unfold removeField at h2
      simp only [List.cons.sizeOf_spec]
      omega

theorem lookup_ref_of_refStrOf {fields : List (String × JVal)} {r : String}
    (h : refStrOf fields = some r) : lookupField fields "$ref" = some (.jstr r) := by
  unfold refStrOf at h
  split at h
  · rename_i heq
    injection h with h'
    subst h'
    exact heq
  · exact Option.noConfusion h

/-- `true` / `false` appearing as a folded schema result normalize to
`{}` / `{"not": {}}`. -/
def normalizeBool : JVal → JVal
  | .jbool b => boolSchema b
  | v => v

mutual

/-- Modelled from the spec: `_resolve_schema_refs(schema, doc)` (spec
§4.1) with the in-progress key set `visited`.  `$ref` targets are looked
up in the registry; a target already being resolved (cycle) keeps the
`$ref` marker — as the whole node for a bare reference, or merged as a
sibling key when local keys are present; missing targets degrade to the
node unchanged; `allOf` members fold left-to-right via `mergeJson` onto
the resolved parent (booleans absorbing) and the `allOf` key disappears;
other recognised keys recurse per child. -/
def resolveCore (doc : JVal) (visited : List String) : JVal → JVal
  | .jbool b => boolSchema b
  | .jobj fields =>
    match href : refStrOf fields with
    | some refStr =>
      match schemaRefName refStr with
      | none => .jobj fields
      | some name =>
        match hreg : lookupField (registry doc) name with
        | none => .jobj fields
        | some target =>
          if hv : (visited.contains name) = true then
            if (removeField fields "$ref").isEmpty then .jobj fields
            else
              mergeJson (resolveCore doc visited (.jobj (removeField fields "$ref")))
                (.jobj [("$ref", .jstr refStr)])
          else
            if (removeField fields "$ref").isEmpty then
              resolveCore doc (name :: visited) target
            else
              mergeJson (resolveCore doc (name :: visited) target)
                (resolveCore doc visited (.jobj (removeField fields "$ref")))
    | none =>
      match hall : lookupField fields "allOf" with
      | some (.jarr members) =>
        normalizeBool
          (resolveAllOf doc visited
            (resolveCore doc visited (.jobj (removeField fields "allOf"))) members)
      | _ => .jobj (resolveFields doc visited fields)
  | v => v
termination_by v => (unvisitedCount doc visited, sizeOf v, 0)
decreasing_by
  all_goals try simp_wf
  all_goals
    first
      | (apply Prod.Lex.left
         exact unvisitedCount_follow_lt hreg hv)
      | (apply Prod.Lex.right
         first
           | (apply Prod.Lex.right
              omega)
           | (apply Prod.Lex.left
              first
                | (have hx := sizeOf_removeField_lt (lookup_ref_of_refStrOf href)
                   omega)
                | (have hx := sizeOf_removeField_lt hall
                   omega)
                | (have hx := sizeOf_lookupField hall
                   simp only [JVal.jarr.sizeOf_spec] at hx
                   omega)
                | omega
                | (simp only [JVal.jobj.sizeOf_spec, JVal.jarr.sizeOf_spec,
                     List.cons.sizeOf_spec, Prod.mk.sizeOf_spec] at *
                   omega)))

/-- Fold resolved `allOf` members left-to-right onto `acc` via
`mergeJson`; raw boolean members stay boolean so the absorbing rule
applies. -/
def resolveAllOf (doc : JVal) (visited : List String) (acc : JVal) :
    List JVal → JVal
  | [] => acc
  | m :: rest =>
    resolveAllOf doc visited
      (mergeJson acc (if isJBool m then m else resolveCore doc visited m)) rest
termination_by ms => (unvisitedCount doc visited, sizeOf ms, 1)
decreasing_by
  all_goals try simp_wf
  all_goals
    first
      | (apply Prod.Lex.left
         exact unvisitedCount_follow_lt hreg hv)
      | (apply Prod.Lex.right
         first
           | (apply Prod.Lex.right
              omega)
           | (apply Prod.Lex.left
              first
                | (have hx := sizeOf_removeField_lt (lookup_ref_of_refStrOf href)
                   omega)
                | (have hx := sizeOf_removeField_lt hall
                   omega)
                | (have hx := sizeOf_lookupField hall
                   simp only [JVal.jarr.sizeOf_spec] at hx
                   omega)
                | omega
                | (simp only [JVal.jobj.sizeOf_spec, JVal.jarr.sizeOf_spec,
                     List.cons.sizeOf_spec, Prod.mk.sizeOf_spec] at *
                   omega)))

/-- Resolve the values of an object node key by key. -/
def resolveFields (doc : JVal) (visited : List String) :
    List (String × JVal) → List (String × JVal)
  | [] => []
  | (k, v) :: rest => (k, resolveKeyVal doc visited k v) :: resolveFields doc visited rest
termination_by fs => (unvisitedCount doc visited, sizeOf fs, 1)
decreasing_by
  all_goals try simp_wf
  all_goals
    first
      | (apply Prod.Lex.left
         exact unvisitedCount_follow_lt hreg hv)
      | (apply Prod.Lex.right
         first
           | (apply Prod.Lex.right
              omega)
           | (apply Prod.Lex.left
              first
                | (have hx := sizeOf_removeField_lt (lookup_ref_of_refStrOf href)
                   omega)
                | (have hx := sizeOf_removeField_lt hall
                   omega)
                | (have hx := sizeOf_lookupField hall
                   simp only [JVal.jarr.sizeOf_spec] at hx
                   omega)
                | omega
                | (simp only [JVal.jobj.sizeOf_spec, JVal.jarr.sizeOf_spec,
                     List.cons.sizeOf_spec, Prod.mk.sizeOf_spec] at *
                   omega)))

/-- Per-key recursion: `properties` values, `items`,
`additionalProperties` and `oneOf`/`anyOf` branches are resolved; other
values are copied verbatim. -/
def resolveKeyVal (doc : JVal) (visited : List String) (k : String) (v : JVal) : JVal :=
  if k = "properties" then
    match v with
    | .jobj props => .jobj (resolvePropList doc visited props)
    | _ => v
  else if k = "items" ∨ k = "additionalProperties" then resolveCore doc visited v
  else if k = "oneOf" ∨ k = "anyOf" then
    match v with
    | .jarr branches => .jarr (resolveEach doc visited branches)
    | _ => v
  else v
termination_by (unvisitedCount doc visited, sizeOf v, 2)
decreasing_by
  all_goals try simp_wf
  all_goals
    first
      | (apply Prod.Lex.left
         exact unvisitedCount_follow_lt hreg hv)
      | (apply Prod.Lex.right
         first
           | (apply Prod.Lex.right
              omega)
           | (apply Prod.Lex.left
              first
                | (have hx := sizeOf_removeField_lt (lookup_ref_of_refStrOf href)
                   omega)
                | (have hx := sizeOf_removeField_lt hall
                   omega)
                | (have hx := sizeOf_lookupField hall
                   simp only [JVal.jarr.sizeOf_spec] at hx
                   omega)
                | omega
                | (simp only [JVal.jobj.sizeOf_spec, JVal.jarr.sizeOf_spec,
                     List.cons.sizeOf_spec, Prod.mk.sizeOf_spec] at *
                   omega)))

/-- Resolve each property value. -/
def resolvePropList (doc : JVal) (visited : List String) :
    List (String × JVal) → List (String × JVal)
  | [] => []
  | (k, v) :: rest => (k, resolveCore doc visited v) :: resolvePropList doc visited rest
termination_by ps => (unvisitedCount doc visited, sizeOf ps, 1)
decreasing_by
  all_goals try simp_wf
  all_goals
    first
      | (apply Prod.Lex.left
         exact unvisitedCount_follow_lt hreg hv)
      | (apply Prod.Lex.right
         first
           | (apply Prod.Lex.right
              omega)
           | (apply Prod.Lex.left
              first
                | (have hx := sizeOf_removeField_lt (lookup_ref_of_refStrOf href)
                   omega)
                | (have hx := sizeOf_removeField_lt hall
                   omega)
                | (have hx := sizeOf_lookupField hall
                   simp only [JVal.jarr.sizeOf_spec] at hx
                   omega)
                | omega
                | (simp only [JVal.jobj.sizeOf_spec, JVal.jarr.sizeOf_spec,
                     List.cons.sizeOf_spec, Prod.mk.sizeOf_spec] at *
                   omega)))

/-- Resolve each combinator branch. -/
def resolveEach (doc : JVal) (visited : List String) : List JVal → List JVal
  | [] => []
  | v :: rest => resolveCore doc visited v :: resolveEach doc visited rest
termination_by bs => (unvisitedCount doc visited, sizeOf bs, 1)
decreasing_by
  all_goals try simp_wf
  all_goals
    first
      | (apply Prod.Lex.left
         exact unvisitedCount_follow_lt hreg hv)
      | (apply Prod.Lex.right
         first
           | (apply Prod.Lex.right
              omega)
           | (apply Prod.Lex.left
              first
                | (have hx := sizeOf_removeField_lt (lookup_ref_of_refStrOf href)
                   omega)
                | (have hx := sizeOf_removeField_lt hall
                   omega)
                | (have hx := sizeOf_lookupField hall
                   simp only [JVal.jarr.sizeOf_spec] at hx
                   omega)
                | omega
                | (simp only [JVal.jobj.sizeOf_spec, JVal.jarr.sizeOf_spec,
                     List.cons.sizeOf_spec, Prod.mk.sizeOf_spec] at *
                   omega)))

end

/-- Modelled from the spec: `resolve_schema(schema, doc)` — full
resolution starting with an empty in-progress set. -/
def resolve_schema (s : JVal) (doc : JVal) : JVal :=
  resolveCore doc [] s


/-- The circular-reference component registry of
`test_resolve_schema_refs_circular_dependency`: a direct self-reference
and an indirect two-schema cycle. -/
def circularSpec : JVal :=
  .jobj [("components", .jobj [("schemas", .jobj [
    ("SelfReferential", .jobj [
      ("type", .jstr "object"),
      ("properties", .jobj [
        ("name", .jobj [("type", .jstr "string")]),
        ("child", .jobj [("$ref", .jstr "#/components/schemas/SelfReferential")])])]),
    ("IndirectA", .jobj [
      ("type", .jstr "object"),
      ("properties", .jobj [
        ("link_to_b", .jobj [("$ref", .jstr "#/components/schemas/IndirectB")])])]),
    ("IndirectB", .jobj [
      ("type", .jstr "object"),
      ("properties", .jobj [
        ("link_to_a", .jobj [("$ref", .jstr "#/components/schemas/IndirectA")])])])])])]

/-- **C1.** Schema resolution terminates on every cyclic schema graph —
`resolveCore` is a total function, accepted by well-founded recursion on
(unvisited registry names, node size) — and a cyclic edge is preserved as
a `$ref` marker: universally, resolving a reference node whose target is
already in the in-progress set returns the unresolved reference object
unchanged; concretely, the direct self-reference and the indirect
two-schema cycle of the test registry resolve to finite trees whose
cyclic edges are the original `$ref` objects. -/
theorem resolve_schema_cycle_terminates_with_ref_marker :
    (∀ (doc : JVal) (visited : List String) (fields : List (String × JVal))
       (r name : String) (target : JVal),
       refStrOf fields = some r →
       schemaRefName r = some name →
       lookupField (registry doc) name = some target →
       visited.contains name = true →
       (removeField fields "$ref").isEmpty = true →
       resolveCore doc visited (.jobj fields) = .jobj fields) ∧
    resolve_schema (.jobj [("$ref", .jstr "#/components/schemas/SelfReferential")])
        circularSpec
      = .jobj [("type", .jstr "object"),
               ("properties", .jobj [
                 ("name", .jobj [("type", .jstr "string")]),
                 ("child", .jobj [("$ref", .jstr "#/components/schemas/SelfReferential")])])] ∧
    resolve_schema (.jobj [("$ref", .jstr "#/components/schemas/IndirectA")]) circularSpec
      = .jobj [("type", .jstr "object"),
               ("properties", .jobj [
                 ("link_to_b", .jobj [
                   ("type", .jstr "object"),
                   ("properties", .jobj [
                     ("link_to_a",
                      .jobj [("$ref", .jstr "#/components/schemas/IndirectA")])])])])] := by
  refine ⟨?_, ?_, ?_⟩
  · intro doc visited fields r name target h1 h2 h3 h4 h5
    rw [resolveCore]
    split
    · rename_i refStr heq
      rw [h1] at heq
      injection heq with heq'
      subst heq'
      split
      · rfl
      · rename_i name' heq2
        rw [h2] at heq2
        injection heq2 with heq2'
        subst heq2'
        split
        · rfl
        · rename_i target' heq3
          rw [dif_pos h4, if_pos h5]
    · rename_i heq
      rw [h1] at heq
      exact Option.noConfusion heq
  · simp [resolve_schema, resolveCore, resolveFields, resolveKeyVal, resolvePropList,
      resolveEach, resolveAllOf, refStrOf, lookupField, registry, removeField,
      schemaRefName, dropPrefixChars, normalizeBool, boolSchema]
  · simp [resolve_schema, resolveCore, resolveFields, resolveKeyVal, resolvePropList,
      resolveEach, resolveAllOf, refStrOf, lookupField, registry, removeField,
      schemaRefName, dropPrefixChars, normalizeBool, boolSchema]

/-- Witness for **C1**: the universal cycle-marker component applied at
the self-referential registry with `SelfReferential` already in
progress. -/
theorem resolve_schema_cycle_terminates_with_ref_marker_witness :
    resolveCore circularSpec ["SelfReferential"]
        (.jobj [("$ref", .jstr "#/components/schemas/SelfReferential")])
      = .jobj [("$ref", .jstr "#/components/schemas/SelfReferential")] :=
  resolve_schema_cycle_terminates_with_ref_marker.1 circularSpec ["SelfReferential"]
    [("$ref", .jstr "#/components/schemas/SelfReferential")]
    "#/components/schemas/SelfReferential" "SelfReferential"
    (.jobj [
      ("type", .jstr "object"),
      ("properties", .jobj [
        ("name", .jobj [("type", .jstr "string")]),
        ("child", .jobj [("$ref", .jstr "#/components/schemas/SelfReferential")])])])
    rfl rfl rfl rfl rfl


/-! ## `allOf` elimination and `oneOf`/`anyOf` preservation (C8)

Well-formedness of a schema fragment: every `$ref` string parses to a
registry component, and every `allOf` value is an array.  Resolution of a
well-formed fragment never leaves a top-level `allOf` key. -/

/-- A node (if it is an object) carries no top-level `allOf` key. -/
def noTopAllOf : JVal → Prop
  | .jobj f => lookupField f "allOf" = none
  | _ => True

/-- The `$ref` of an object (if any) parses and resolves in `reg`. -/
def refFieldOkB (reg : List (String × JVal)) (fields : List (String × JVal)) : Bool :=
  match refStrOf fields with
  | some r =>
    match schemaRefName r with
    | some n => (lookupField reg n).isSome
    | none => false
  | none => true

/-- The `allOf` value of an object (if any) is an array. -/
def allOfFieldOkB (fields : List (String × JVal)) : Bool :=
  match lookupField fields "allOf" with
  | some v => match v with | .jarr _ => true | _ => false
  | none => true

mutual

/-- Every `$ref` in the fragment resolves in `reg` and every `allOf`
value is an array, recursively. -/
def schemaOkB (reg : List (String × JVal)) : JVal → Bool
  | .jobj fields => refFieldOkB reg fields && allOfFieldOkB fields && fieldsOkB reg fields
  | .jarr xs => listOkB reg xs
  | _ => true

/-- `schemaOkB` over the values of an association list. -/
def fieldsOkB (reg : List (String × JVal)) : List (String × JVal) → Bool
  | [] => true
  | (_, v) :: rest => schemaOkB reg v && fieldsOkB reg rest

/-- `schemaOkB` over a list of values. -/
def listOkB (reg : List (String × JVal)) : List JVal → Bool
  | [] => true
  | v :: rest => schemaOkB reg v && listOkB reg rest

end

/-- Every registry component of the document is well-formed. -/
def docOkB (doc : JVal) : Bool := fieldsOkB (registry doc) (registry doc)

theorem lookupField_append_none {l1 l2 : List (String × JVal)} {k : String}
    (h1 : lookupField l1 k = none) (h2 : lookupField l2 k = none) :
    lookupField (l1 ++ l2) k = none := by
  induction l1 with
  | nil => simpa using h2
  | cons p rest ih =>
    rw [List.cons_append, lookupField]
    rw [lookupField] at h1
    split at h1
    · exact Option.noConfusion h1
    · rename_i hne
      rw [if_neg hne]
      exact ih h1

theorem lookupField_map_keys_none {l : List (String × JVal)} {k : String}
    (g : String × JVal → JVal) (h : lookupField l k = none) :
    lookupField (l.map fun p => (p.1, g p)) k = none := by
  induction l with
  | nil => rfl
  | cons p rest ih =>
    rw [List.map_cons, lookupField]
    rw [lookupField] at h
    split at h
    · exact Option.noConfusion h
    · rename_i hne
      rw [if_neg hne]
      exact ih h

theorem lookupField_filter_none {l : List (String × JVal)} {k : String}
    (q : String × JVal → Bool) (h : lookupField l k = none) :
    lookupField (l.filter q) k = none := by
  induction l with
  | nil => rfl
  | cons p rest ih =>
    rw [lookupField] at h
    rw [List.filter_cons]
    split at h
    · exact Option.noConfusion h
    · rename_i hne
      split
      · rw [lookupField, if_neg hne]
        exact ih h
      · exact ih h

theorem lookupField_unionFields_none {bf af : List (String × JVal)} {k : String}
    (hb : lookupField bf k = none) (ha : lookupField af k = none) :
    lookupField (unionFields bf af) k = none := by
  unfold unionFields
  exact lookupField_append_none (lookupField_map_keys_none _ hb)
    (lookupField_filter_none _ ha)

theorem lookupField_setField_ne {l : List (String × JVal)} {k' k : String} {v : JVal}
    (hne : k' ≠ k) : lookupField (setField l k' v) k = lookupField l k := by
  induction l with
  | nil => rfl
  | cons p rest ih =>
    unfold setField
    rw [List.map_cons]
    by_cases hp : p.1 = k'
    · have h1 : (if p.1 = k' then (k', v) else p) = (k', v) := if_pos hp
      rw [h1, lookupField, if_neg hne, lookupField]
      rw [if_neg (hp ▸ hne)]
      exact ih
    · have h1 : (if p.1 = k' then (k', v) else p) = p := if_neg hp
      rw [h1, lookupField, lookupField]
      split
      · rfl
      · exact ih

theorem lookupField_removeField_self (fields : List (String × JVal)) (k : String) :
    lookupField (removeField fields k) k = none := by
  induction fields with
  | nil => rfl
  | cons p rest ih =>
    unfold removeField
    rw [List.filter_cons]
    split
    · rename_i hq
      simp only [decide_eq_true_eq] at hq
      rw [lookupField, if_neg hq]
      exact ih
    · exact ih

theorem lookupField_removeField_ne {fields : List (String × JVal)} {k k' : String}
    (hne : k' ≠ k) : lookupField (removeField fields k) k' = lookupField fields k' := by
  induction fields with
  | nil => rfl
  | cons p rest ih =>
    unfold removeField
    rw [List.filter_cons]
    by_cases hp : p.1 = k
    · have h1 : (decide (p.1 ≠ k)) = false := by simp [hp]
      rw [h1, if_neg Bool.false_ne_true, lookupField]
      rw [if_neg (fun hc => hne (by rw [← hc, hp]))]
      exact ih
    · have h1 : (decide (p.1 ≠ k)) = true := by simp [hp]
      rw [h1, if_pos rfl, lookupField, lookupField]
      split
      · rfl
      · exact ih

theorem lookupField_none_of_isEmpty_removeField {fields : List (String × JVal)}
    {k k' : String} (h : (removeField fields k).isEmpty = true) (hne : k' ≠ k) :
    lookupField fields k' = none := by
  rw [← lookupField_removeField_ne hne]
  cases hrf : removeField fields k with
  | nil => rfl
  | cons p rest =>
    rw [hrf] at h
    simp at h


theorem noTopAllOf_mergeStructural {a b : JVal} (ha : noTopAllOf a) (hb : noTopAllOf b) :
    noTopAllOf (mergeStructural a b) := by
  cases a with
  | jobj bf =>
    cases b with
    | jobj af =>
      have ha' : lookupField bf "allOf" = none := ha
      have hb' : lookupField af "allOf" = none := hb
      simp only [mergeStructural]
      split
      · exact ha
      · split
        · exact hb
        · have hm0 : lookupField (unionFields bf af) "allOf" = none :=
            lookupField_unionFields_none ha' hb'
          show lookupField _ "allOf" = none
          split
          · rw [lookupField_setField_ne (by decide)]
            split
            · rw [lookupField_setField_ne (by decide)]
              exact hm0
            · exact hm0
          · split
            · rw [lookupField_setField_ne (by decide)]
              exact hm0
            · exact hm0
    | jbool bb => exact hb
    | jnum n => exact hb
    | jstr t => exact hb
    | jnull => exact hb
    | jarr xs => exact hb
  | jbool ab => cases b <;> exact hb
  | jnum n => cases b <;> exact hb
  | jstr t => cases b <;> exact hb
  | jnull => cases b <;> exact hb
  | jarr xs => cases b <;> exact hb

theorem noTopAllOf_mergeJson {a b : JVal} (ha : noTopAllOf a) (hb : noTopAllOf b) :
    noTopAllOf (mergeJson a b) := by
  have hs := noTopAllOf_mergeStructural ha hb
  cases a <;> cases b <;>
    first
      | exact hs
      | trivial
      | (rename_i c; cases c <;> first | exact hs | trivial)
      | (rename_i c d; cases c <;> cases d <;> first | exact hs | trivial)

theorem schemaOkB_parts {reg : List (String × JVal)} {fields : List (String × JVal)}
    (h : schemaOkB reg (.jobj fields) = true) :
    refFieldOkB reg fields = true ∧ allOfFieldOkB fields = true ∧
      fieldsOkB reg fields = true := by
  rw [schemaOkB] at h
  simp only [Bool.and_eq_true] at h
  exact ⟨h.1.1, h.1.2, h.2⟩

theorem schemaOkB_of_lookup {reg : List (String × JVal)} :
    ∀ {fields : List (String × JVal)} {k : String} {v : JVal},
      fieldsOkB reg fields = true → lookupField fields k = some v →
      schemaOkB reg v = true
  | [], k, v, _, hl => by simp [lookupField] at hl
  | (a, b) :: rest, k, v, hf, hl => by
    rw [fieldsOkB, Bool.and_eq_true] at hf
    rw [lookupField] at hl
    split at hl
    · injection hl with h'
      subst h'
      exact hf.1
    · exact schemaOkB_of_lookup hf.2 hl

theorem fieldsOkB_filter {reg : List (String × JVal)} (q : String × JVal → Bool) :
    ∀ {l : List (String × JVal)}, fieldsOkB reg l = true →
      fieldsOkB reg (l.filter q) = true
  | [], _ => rfl
  | (a, b) :: rest, h => by
    rw [fieldsOkB, Bool.and_eq_true] at h
    rw [List.filter_cons]
    split
    · rw [fieldsOkB, Bool.and_eq_true]
      exact ⟨h.1, fieldsOkB_filter q h.2⟩
    · exact fieldsOkB_filter q h.2

theorem listOkB_mem {reg : List (String × JVal)} :
    ∀ {xs : List JVal} {m : JVal}, listOkB reg xs = true → m ∈ xs →
      schemaOkB reg m = true
  | [], m, _, hm => by simp at hm
  | x :: rest, m, h, hm => by
    rw [listOkB, Bool.and_eq_true] at h
    rcases List.mem_cons.mp hm with h1 | h1
    · exact h1 ▸ h.1
    · exact listOkB_mem h.2 h1

theorem refStrOf_congr {l l' : List (String × JVal)}
    (h : lookupField l "$ref" = lookupField l' "$ref") : refStrOf l = refStrOf l' := by
  unfold refStrOf
  rw [h]

theorem schemaOkB_removeField_ref {reg : List (String × JVal)}
    {fields : List (String × JVal)} (h : schemaOkB reg (.jobj fields) = true) :
    schemaOkB reg (.jobj (removeField fields "$ref")) = true := by
  obtain ⟨_, hallOf, hfields⟩ := schemaOkB_parts h
  rw [schemaOkB, Bool.and_eq_true, Bool.and_eq_true]
  refine ⟨⟨?_, ?_⟩, fieldsOkB_filter _ hfields⟩
  · unfold refFieldOkB
    have h1 : refStrOf (removeField fields "$ref") = none := by
      unfold refStrOf
      rw [lookupField_removeField_self]
    rw [h1]
  · unfold allOfFieldOkB
    rw [lookupField_removeField_ne (by decide)]
    exact hallOf
  
theorem schemaOkB_removeField_allOf {reg : List (String × JVal)}
    {fields : List (String × JVal)} (h : schemaOkB reg (.jobj fields) = true) :
    schemaOkB reg (.jobj (removeField fields "allOf")) = true := by
  obtain ⟨href, _, hfields⟩ := schemaOkB_parts h
  rw [schemaOkB, Bool.and_eq_true, Bool.and_eq_true]
  refine ⟨⟨?_, ?_⟩, fieldsOkB_filter _ hfields⟩
  · unfold refFieldOkB
    rw [refStrOf_congr (lookupField_removeField_ne (by decide))]
    exact href
  · unfold allOfFieldOkB
    rw [lookupField_removeField_self]

theorem schemaOkB_target {doc : JVal} {n : String} {t : JVal}
    (hdoc : docOkB doc = true) (h : lookupField (registry doc) n = some t) :
    schemaOkB (registry doc) t = true :=
  schemaOkB_of_lookup hdoc h

theorem lookupField_resolveFields (doc : JVal) (visited : List String) :
    ∀ (fields : List (String × JVal)) (k : String),
      lookupField (resolveFields doc visited fields) k
        = (lookupField fields k).map (fun v => resolveKeyVal doc visited k v)
  | [], k => by rw [resolveFields]; rfl
  | (k', v) :: rest, k => by
    rw [resolveFields, lookupField, lookupField]
    split
    · rename_i heq
      subst heq
      rfl
    · exact lookupField_resolveFields doc visited rest k

theorem resolveEach_eq_map (doc : JVal) (visited : List String) :
    ∀ (bs : List JVal), resolveEach doc visited bs = bs.map (resolveCore doc visited)
  | [] => by rw [resolveEach, List.map_nil]
  | b :: rest => by
    rw [resolveEach, List.map_cons, resolveEach_eq_map doc visited rest]


theorem noTopAllOf_mergeJson_bool (a : JVal) (b : Bool) :
    noTopAllOf (mergeJson a (.jbool b)) := by
  cases a <;> cases b <;>
    first
      | trivial
      | (rename_i c; cases c <;> trivial)

theorem noTopAllOf_normalizeBool {v : JVal} (h : noTopAllOf v) :
    noTopAllOf (normalizeBool v) := by
  cases v with
  | jbool b => cases b <;> rfl
  | jnum n => exact h
  | jstr t => exact h
  | jnull => exact h
  | jarr xs => exact h
  | jobj fs => exact h

theorem noTopAllOf_resolveAllOf (doc : JVal) (visited : List String) :
    ∀ (ms : List JVal) (acc : JVal), noTopAllOf acc →
      (∀ m ∈ ms, noTopAllOf (resolveCore doc visited m)) →
      noTopAllOf (resolveAllOf doc visited acc ms)
  | [], acc, hacc, _ => by rw [resolveAllOf]; exact hacc
  | m :: rest, acc, hacc, hms => by
    rw [resolveAllOf]
    apply noTopAllOf_resolveAllOf doc visited rest
    · by_cases hb : isJBool m
      · cases m with
        | jbool b =>
          rw [if_pos hb]
          exact noTopAllOf_mergeJson_bool acc b
        | jnum n => simp [isJBool] at hb
        | jstr t => simp [isJBool] at hb
        | jnull => simp [isJBool] at hb
        | jarr xs => simp [isJBool] at hb
        | jobj fs => simp [isJBool] at hb
      · rw [if_neg hb]
        exact noTopAllOf_mergeJson hacc (hms m (List.mem_cons_self _ _))
    · intro x hx
      exact hms x (List.mem_cons_of_mem _ hx)

theorem noTopAllOf_resolveCore (doc : JVal) (hdoc : docOkB doc = true) :
    ∀ (visited : List String) (s : JVal),
      schemaOkB (registry doc) s = true → noTopAllOf (resolveCore doc visited s)
  | visited, .jbool b, _ => by
    rw [resolveCore]
    cases b <;> rfl
  | visited, .jnum n, _ => by simp [resolveCore, noTopAllOf]
  | visited, .jstr t, _ => by simp [resolveCore, noTopAllOf]
  | visited, .jnull, _ => by simp [resolveCore, noTopAllOf]
  | visited, .jarr xs, _ => by simp [resolveCore, noTopAllOf]
  | visited, .jobj fields, hs => by
    rw [resolveCore]
    split
    · rename_i refStr href
      split
      · rename_i hname
        exfalso
        have h1 := (schemaOkB_parts hs).1
        unfold refFieldOkB at h1
        simp [href, hname] at h1
      · rename_i name hname
        split
        · rename_i hreg
          exfalso
          have h1 := (schemaOkB_parts hs).1
          unfold refFieldOkB at h1
          simp [href, hname, hreg] at h1
        · rename_i target hreg
          split
          · rename_i hv
            split
            · rename_i hbare
              show lookupField fields "allOf" = none
              exact lookupField_none_of_isEmpty_removeField hbare (by decide)
            · rename_i hbare
              apply noTopAllOf_mergeJson
              · exact noTopAllOf_resolveCore doc hdoc visited
                  (.jobj (removeField fields "$ref")) (schemaOkB_removeField_ref hs)
              · show lookupField [("$ref", JVal.jstr refStr)] "allOf" = none
                rfl
          · rename_i hv
            split
            · exact noTopAllOf_resolveCore doc hdoc (name :: visited) target
                (schemaOkB_target hdoc hreg)
            · apply noTopAllOf_mergeJson
              · exact noTopAllOf_resolveCore doc hdoc (name :: visited) target
                  (schemaOkB_target hdoc hreg)
              · exact noTopAllOf_resolveCore doc hdoc visited
                  (.jobj (removeField fields "$ref")) (schemaOkB_removeField_ref hs)
    · rename_i href
      split
      · rename_i members hall
        apply noTopAllOf_normalizeBool
        apply noTopAllOf_resolveAllOf
        · exact noTopAllOf_resolveCore doc hdoc visited
            (.jobj (removeField fields "allOf")) (schemaOkB_removeField_allOf hs)
        · intro m hm
          apply noTopAllOf_resolveCore doc hdoc visited m
          have h1 := schemaOkB_of_lookup (schemaOkB_parts hs).2.2 hall
          rw [schemaOkB] at h1
          exact listOkB_mem h1 hm
      · rename_i hcatch
        have h2 := (schemaOkB_parts hs).2.1
        unfold allOfFieldOkB at h2
        have hnone : lookupField fields "allOf" = none := by
          cases hlk : lookupField fields "allOf" with
          | none => rfl
          | some v =>
            rw [hlk] at h2
            cases v with
            | jarr ms => exact (hcatch ms hlk).elim
            | jbool b => exact Bool.noConfusion h2
            | jnum n => exact Bool.noConfusion h2
            | jstr t => exact Bool.noConfusion h2
            | jnull => exact Bool.noConfusion h2
            | jobj fs => exact Bool.noConfusion h2
        show lookupField (resolveFields doc visited fields) "allOf" = none
        rw [lookupField_resolveFields, hnone]
        rfl
termination_by visited s => (unvisitedCount doc visited, sizeOf s)
decreasing_by
  all_goals try simp_wf
  all_goals
    first
      | (apply Prod.Lex.left
         exact unvisitedCount_follow_lt (by assumption) (by assumption))
      | (apply Prod.Lex.right
         first
           | (have hx := sizeOf_removeField_lt (lookup_ref_of_refStrOf (by assumption))
              omega)
           | (have hx := @sizeOf_removeField_lt _ "allOf" _ (by assumption)
              omega)
           | (have hy := List.sizeOf_lt_of_mem hm
              have hx := sizeOf_lookupField
                (by assumption : lookupField _ "allOf" = some (JVal.jarr _))
              simp only [JVal.jarr.sizeOf_spec] at hx
              omega)
           | omega)


/-- Top-level key lookup on a resolved node. -/
def topField : JVal → String → Option JVal
  | .jobj f, k => lookupField f k
  | _, _ => none

/-- The `allOf`-merging registry of
`test_resolve_schema_refs_allof_merging`: `ExtendedSchema` extends
`BaseSchema` via `allOf`. -/
def allOfSpec : JVal :=
  .jobj [("components", .jobj [("schemas", .jobj [
    ("BaseSchema", .jobj [
      ("type", .jstr "object"),
      ("properties", .jobj [
        ("id", .jobj [("type", .jstr "string")]),
        ("name", .jobj [("type", .jstr "string")])]),
      ("required", .jarr [.jstr "id"])]),
    ("ExtendedSchema", .jobj [
      ("allOf", .jarr [
        .jobj [("$ref", .jstr "#/components/schemas/BaseSchema")],
        .jobj [
          ("type", .jstr "object"),
          ("properties", .jobj [
            ("description", .jobj [("type", .jstr "string")]),
            ("tags", .jobj [("type", .jstr "array"),
                            ("items", .jobj [("type", .jstr "string")])])]),
          ("required", .jarr [.jstr "description"])]])])])])]

/-- Unfolding of the `allOf` branch of the resolver. -/
theorem resolveCore_allOf_eq {doc : JVal} {visited : List String}
    {fields : List (String × JVal)} {members : List JVal}
    (h1 : refStrOf fields = none)
    (h2 : lookupField fields "allOf" = some (.jarr members)) :
    resolveCore doc visited (.jobj fields)
      = normalizeBool (resolveAllOf doc visited
          (resolveCore doc visited (.jobj (removeField fields "allOf"))) members) := by
  rw [resolveCore]
  split
  · rename_i refStr heq
    rw [h1] at heq
    exact Option.noConfusion heq
  · split
    · rename_i ms heq
      rw [h2] at heq
      injection heq with heq'
      injection heq' with heq2
      rw [heq2]
    · rename_i hcatch
      exact (hcatch members h2).elim

theorem resolveAllOf_nil (doc : JVal) (visited : List String) (acc : JVal) :
    resolveAllOf doc visited acc [] = acc := by
  rw [resolveAllOf]

theorem resolveAllOf_cons_obj (doc : JVal) (visited : List String) (acc : JVal)
    (mf : List (String × JVal)) (rest : List JVal) :
    resolveAllOf doc visited acc (.jobj mf :: rest)
      = resolveAllOf doc visited
          (mergeJson acc (resolveCore doc visited (.jobj mf))) rest := by
  rw [resolveAllOf]
  rw [if_neg]
  simp [isJBool]

theorem allOfSpec_follow_extended :
    resolve_schema (.jobj [("$ref", .jstr "#/components/schemas/ExtendedSchema")]) allOfSpec
      = resolveCore allOfSpec ["ExtendedSchema"]
          (.jobj [("allOf", .jarr [
             .jobj [("$ref", .jstr "#/components/schemas/BaseSchema")],
             .jobj [
          ("type", .jstr "object"),
          ("properties", .jobj [
            ("description", .jobj [("type", .jstr "string")]),
            ("tags", .jobj [("type", .jstr "array"),
                            ("items", .jobj [("type", .jstr "string")])])]),
          ("required", .jarr [.jstr "description"])]])]) := by
  rw [resolve_schema]
  rw [resolveCore]
  simp [refStrOf, lookupField, registry, schemaRefName, dropPrefixChars,
    removeField, allOfSpec]

theorem allOfSpec_resolve_empty :
    resolveCore allOfSpec ["ExtendedSchema"] (.jobj []) = .jobj [] := by
  simp [resolveCore, resolveFields, refStrOf, lookupField]

theorem allOfSpec_resolve_base_ref :
    resolveCore allOfSpec ["ExtendedSchema"]
        (.jobj [("$ref", .jstr "#/components/schemas/BaseSchema")])
      = .jobj [("type", .jstr "object"),
             ("properties", .jobj [
               ("id", .jobj [("type", .jstr "string")]),
               ("name", .jobj [("type", .jstr "string")])]),
             ("required", .jarr [.jstr "id"])] := by
  simp [resolveCore, resolveFields, resolveKeyVal, resolvePropList, resolveEach,
    refStrOf, lookupField, registry, removeField, schemaRefName, dropPrefixChars,
    allOfSpec]

theorem allOfSpec_resolve_extension :
    resolveCore allOfSpec ["ExtendedSchema"] (.jobj [
          ("type", .jstr "object"),
          ("properties", .jobj [
            ("description", .jobj [("type", .jstr "string")]),
            ("tags", .jobj [("type", .jstr "array"),
                            ("items", .jobj [("type", .jstr "string")])])]),
          ("required", .jarr [.jstr "description"])])
      = .jobj [
          ("type", .jstr "object"),
          ("properties", .jobj [
            ("description", .jobj [("type", .jstr "string")]),
            ("tags", .jobj [("type", .jstr "array"),
                            ("items", .jobj [("type", .jstr "string")])])]),
          ("required", .jarr [.jstr "description"])] := by
  simp [resolveCore, resolveFields, resolveKeyVal, resolvePropList, resolveEach,
    refStrOf, lookupField, removeField]

theorem allOfSpec_merge_empty_base :
    mergeJson (.jobj []) (.jobj [("type", .jstr "object"),
             ("properties", .jobj [
               ("id", .jobj [("type", .jstr "string")]),
               ("name", .jobj [("type", .jstr "string")])]),
             ("required", .jarr [.jstr "id"])])
      = .jobj [("type", .jstr "object"),
             ("properties", .jobj [
               ("id", .jobj [("type", .jstr "string")]),
               ("name", .jobj [("type", .jstr "string")])]),
             ("required", .jarr [.jstr "id"])] := rfl

theorem allOfSpec_merge_base_extension :
    mergeJson (.jobj [("type", .jstr "object"),
             ("properties", .jobj [
               ("id", .jobj [("type", .jstr "string")]),
               ("name", .jobj [("type", .jstr "string")])]),
             ("required", .jarr [.jstr "id"])])
      (.jobj [
          ("type", .jstr "object"),
          ("properties", .jobj [
            ("description", .jobj [("type", .jstr "string")]),
            ("tags", .jobj [("type", .jstr "array"),
                            ("items", .jobj [("type", .jstr "string")])])]),
          ("required", .jarr [.jstr "description"])])
      = .jobj [("type", .jstr "object"),
             ("properties", .jobj [
               ("id", .jobj [("type", .jstr "string")]),
               ("name", .jobj [("type", .jstr "string")]),
               ("description", .jobj [("type", .jstr "string")]),
               ("tags", .jobj [("type", .jstr "array"),
                               ("items", .jobj [("type", .jstr "string")])])]),
             ("required", .jarr [.jstr "id", .jstr "description"])] := rfl

/-- **C8.** During schema resolution the `allOf` key is eliminated: on any
well-formed document and fragment (every `$ref` resolves, every `allOf`
value is an array) the resolved output carries no top-level `allOf` key;
`oneOf` / `anyOf` combinator arrays remain present with each branch
resolved independently, never flattened into the parent; and the
`ExtendedSchema` of the `allOf`-merging test registry resolves to the
merged schema with `properties` unioned, `required` unioned and no
`allOf`. -/
theorem resolve_schema_allof_eliminated_oneof_preserved :
    (∀ (doc : JVal) (visited : List String) (s : JVal),
       docOkB doc = true → schemaOkB (registry doc) s = true →
       noTopAllOf (resolveCore doc visited s)) ∧
    (∀ (doc : JVal) (visited : List String) (fields : List (String × JVal))
       (k : String) (branches : List JVal),
       k = "oneOf" ∨ k = "anyOf" →
       refStrOf fields = none →
       lookupField fields "allOf" = none →
       lookupField fields k = some (.jarr branches) →
       topField (resolveCore doc visited (.jobj fields)) k
         = some (.jarr (branches.map (resolveCore doc visited)))) ∧
    resolve_schema (.jobj [("$ref", .jstr "#/components/schemas/ExtendedSchema")]) allOfSpec
      = .jobj [("type", .jstr "object"),
             ("properties", .jobj [
               ("id", .jobj [("type", .jstr "string")]),
               ("name", .jobj [("type", .jstr "string")]),
               ("description", .jobj [("type", .jstr "string")]),
               ("tags", .jobj [("type", .jstr "array"),
                               ("items", .jobj [("type", .jstr "string")])])]),
             ("required", .jarr [.jstr "id", .jstr "description"])] := by
  refine ⟨fun doc visited s h1 h2 => noTopAllOf_resolveCore doc h1 visited s h2, ?_, ?_⟩
  · intro doc visited fields k branches hk href hallOf hlk
    rw [resolveCore]
    split
    · rename_i refStr href2
      rw [href] at href2
      exact Option.noConfusion href2
    · split
      · rename_i members hall2
        rw [hallOf] at hall2
        exact Option.noConfusion hall2
      · show lookupField (resolveFields doc visited fields) k = _
        rw [lookupField_resolveFields, hlk]
        have hkv : resolveKeyVal doc visited k (.jarr branches)
            = .jarr (resolveEach doc visited branches) := by
          rcases hk with rfl | rfl <;> simp [resolveKeyVal]
        simp only [Option.map_some', hkv, resolveEach_eq_map]
  · rw [allOfSpec_follow_extended]
    have hx1 : refStrOf [("allOf", JVal.jarr [
          .jobj [("$ref", .jstr "#/components/schemas/BaseSchema")],
          .jobj [
          ("type", .jstr "object"),
          ("properties", .jobj [
            ("description", .jobj [("type", .jstr "string")]),
            ("tags", .jobj [("type", .jstr "array"),
                            ("items", .jobj [("type", .jstr "string")])])]),
          ("required", .jarr [.jstr "description"])]])] = none := rfl
    have hx2 : lookupField [("allOf", JVal.jarr [
          .jobj [("$ref", .jstr "#/components/schemas/BaseSchema")],
          .jobj [
          ("type", .jstr "object"),
          ("properties", .jobj [
            ("description", .jobj [("type", .jstr "string")]),
            ("tags", .jobj [("type", .jstr "array"),
                            ("items", .jobj [("type", .jstr "string")])])]),
          ("required", .jarr [.jstr "description"])]])] "allOf"
        = some (.jarr [
          .jobj [("$ref", .jstr "#/components/schemas/BaseSchema")],
          .jobj [
          ("type", .jstr "object"),
          ("properties", .jobj [
            ("description", .jobj [("type", .jstr "string")]),
            ("tags", .jobj [("type", .jstr "array"),
                            ("items", .jobj [("type", .jstr "string")])])]),
          ("required", .jarr [.jstr "description"])]]) := rfl
    rw [resolveCore_allOf_eq hx1 hx2]
    rw [show removeField [("allOf", JVal.jarr [
          .jobj [("$ref", .jstr "#/components/schemas/BaseSchema")],
          .jobj [
          ("type", .jstr "object"),
          ("properties", .jobj [
            ("description", .jobj [("type", .jstr "string")]),
            ("tags", .jobj [("type", .jstr "array"),
                            ("items", .jobj [("type", .jstr "string")])])]),
          ("required", .jarr [.jstr "description"])]])] "allOf"
        = ([] : List (String × JVal)) from rfl]
    rw [allOfSpec_resolve_empty]
    rw [resolveAllOf_cons_obj, allOfSpec_resolve_base_ref, allOfSpec_merge_empty_base]
    rw [resolveAllOf_cons_obj, allOfSpec_resolve_extension, allOfSpec_merge_base_extension]
    rw [resolveAllOf_nil]
    rfl

/-- Witness for **C8**: the universal components applied to concrete data —
the self-referential registry (well-formed) for `allOf` elimination, and a
one-element `oneOf` object resolved against the empty document. -/
theorem resolve_schema_allof_eliminated_oneof_preserved_witness :
    noTopAllOf (resolveCore circularSpec []
      (.jobj [("$ref", .jstr "#/components/schemas/SelfReferential")])) ∧
    topField (resolveCore (.jobj []) [] (.jobj [("oneOf", .jarr [.jbool true])])) "oneOf"
      = some (.jarr ([JVal.jbool true].map (resolveCore (.jobj []) []))) :=
  ⟨resolve_schema_allof_eliminated_oneof_preserved.1 circularSpec []
      (.jobj [("$ref", .jstr "#/components/schemas/SelfReferential")])
      (by simp [docOkB, registry, circularSpec, fieldsOkB, schemaOkB, listOkB,
        refFieldOkB, allOfFieldOkB, refStrOf, lookupField, schemaRefName,
        dropPrefixChars])
      (by simp [schemaOkB, fieldsOkB, listOkB, refFieldOkB, allOfFieldOkB, refStrOf,
        lookupField, schemaRefName, dropPrefixChars, registry, circularSpec]),
   resolve_schema_allof_eliminated_oneof_preserved.2.1 (.jobj []) []
      [("oneOf", .jarr [.jbool true])] "oneOf" [.jbool true]
      (Or.inl rfl) rfl rfl rfl⟩



/-! ## `_limit_dict_depth` (extractor, C9) -/

/-- Modelled from the spec: the truncation value for a dict that lies at
the depth limit — the string value of its declared `type`, or
`"object"` when untyped. -/
def declaredTypeStr (fields : List (String × JVal)) : JVal :=
  match lookupField fields "type" with
  | some (.jstr t) => .jstr t
  | _ => .jstr "object"

mutual

/-- Modelled from the spec: `_limit_dict_depth(data, max_depth)` — any
non-empty dict or list at the configured limit is replaced by a string
(`type` value, `"object"` or `"array"`); scalars and empty containers
are returned unchanged at every depth; above the limit the structure is
rebuilt with the limit decremented per level. -/
def limitDepth (maxDepth : Nat) : JVal → JVal
  | .jobj [] => .jobj []
  | .jobj fields =>
    if maxDepth = 0 then declaredTypeStr fields
    else .jobj (limitFields (maxDepth - 1) fields)
  | .jarr [] => .jarr []
  | .jarr xs =>
    if maxDepth = 0 then .jstr "array"
    else .jarr (limitList (maxDepth - 1) xs)
  | v => v

/-- Depth limiting over the entries of a dict. -/
def limitFields (maxDepth : Nat) : List (String × JVal) → List (String × JVal)
  | [] => []
  | (k, v) :: rest => (k, limitDepth maxDepth v) :: limitFields maxDepth rest

/-- Depth limiting over the elements of a list. -/
def limitList (maxDepth : Nat) : List JVal → List JVal
  | [] => []
  | v :: rest => limitDepth maxDepth v :: limitList maxDepth rest

end

/-- A scalar JSON value (string, number, boolean or null). -/
def isScalarJ : JVal → Bool
  | .jbool _ => true
  | .jnum _ => true
  | .jstr _ => true
  | .jnull => true
  | _ => false

theorem limitFields_eq_map (d : Nat) :
    ∀ fields : List (String × JVal),
      limitFields d fields = fields.map (fun p => (p.1, limitDepth d p.2))
  | [] => by rw [limitFields, List.map_nil]
  | (k, v) :: rest => by
    rw [limitFields, List.map_cons, limitFields_eq_map d rest]

theorem limitList_eq_map (d : Nat) :
    ∀ xs : List JVal, limitList d xs = xs.map (limitDepth d)
  | [] => by rw [limitList, List.map_nil]
  | v :: rest => by
    rw [limitList, List.map_cons, limitList_eq_map d rest]

/-- **C9.** `_limit_dict_depth`: every non-empty dict at the depth limit
becomes the string of its declared `type` (or `"object"` when untyped),
every non-empty list at the limit becomes `"array"`; scalars and empty
containers are returned unchanged at every depth; above the limit the
container is rebuilt entry-wise with the limit decremented — together
with the mixed-container rows of `test_limit_dict_depth`. -/
theorem limit_dict_depth_truncation :
    (∀ (d : Nat) (v : JVal), isScalarJ v = true → limitDepth d v = v) ∧
    (∀ d : Nat, limitDepth d (.jobj []) = .jobj [] ∧ limitDepth d (.jarr []) = .jarr []) ∧
    (∀ fields : List (String × JVal), fields ≠ [] →
      limitDepth 0 (.jobj fields) = declaredTypeStr fields) ∧
    (∀ xs : List JVal, xs ≠ [] → limitDepth 0 (.jarr xs) = .jstr "array") ∧
    (∀ (d : Nat) (fields : List (String × JVal)), fields ≠ [] →
      limitDepth (d + 1) (.jobj fields)
        = .jobj (fields.map (fun p => (p.1, limitDepth d p.2)))) ∧
    (∀ (d : Nat) (xs : List JVal), xs ≠ [] →
      limitDepth (d + 1) (.jarr xs) = .jarr (xs.map (limitDepth d))) ∧
    limitDepth 2 (.jobj [("a", .jarr [.jnum 1, .jobj [("b", .jarr [.jnum 2, .jnum 3])]])])
      = .jobj [("a", .jarr [.jnum 1, .jstr "object"])] ∧
    limitDepth 0 (.jobj [("a", .jobj [("b", .jobj [("c", .jnum 1),
        ("type", .jstr "nested_object")])])])
      = .jstr "object" ∧
    limitDepth 1 (.jarr [.jarr [.jarr [.jstr "a"]]]) = .jarr [.jstr "array"] := by
  refine ⟨?_, ?_, ?_, ?_, ?_, ?_, ?_, ?_, ?_⟩
  · intro d v hv
    cases v with
    | jbool b => simp [limitDepth]
    | jnum n => simp [limitDepth]
    | jstr t => simp [limitDepth]
    | jnull => simp [limitDepth]
    | jarr xs => simp [isScalarJ] at hv
    | jobj fs => simp [isScalarJ] at hv
  · intro d
    exact ⟨by rw [limitDepth], by rw [limitDepth]⟩
  · intro fields hne
    cases fields with
    | nil => exact absurd rfl hne
    | cons p rest =>
      rw [limitDepth, if_pos rfl]
      exact fun h => List.noConfusion h
  · intro xs hne
    cases xs with
    | nil => exact absurd rfl hne
    | cons x rest =>
      rw [limitDepth, if_pos rfl]
      exact fun h => List.noConfusion h
  · intro d fields hne
    cases fields with
    | nil => exact absurd rfl hne
    | cons p rest =>
      rw [limitDepth, if_neg (Nat.succ_ne_zero d), limitFields_eq_map]
      · simp
      · exact fun h => List.noConfusion h
  · intro d xs hne
    cases xs with
    | nil => exact absurd rfl hne
    | cons x rest =>
      rw [limitDepth, if_neg (Nat.succ_ne_zero d), limitList_eq_map]
      · simp
      · exact fun h => List.noConfusion h
  · simp [limitDepth, limitFields, limitList, declaredTypeStr, lookupField]
  · simp [limitDepth, limitFields, limitList, declaredTypeStr, lookupField]
  · simp [limitDepth, limitFields, limitList, declaredTypeStr, lookupField]

/-- Witness for **C9**: the guarded components applied at concrete
inputs. -/
theorem limit_dict_depth_truncation_witness :
    limitDepth 3 (.jnum 7) = .jnum 7 ∧
    limitDepth 0 (.jobj [("type", .jstr "integer")]) = declaredTypeStr [("type", .jstr "integer")] ∧
    limitDepth 0 (.jarr [.jnum 1]) = .jstr "array" ∧
    limitDepth 1 (.jobj [("a", .jnum 1)])
      = .jobj ([("a", JVal.jnum 1)].map (fun p => (p.1, limitDepth 0 p.2))) ∧
    limitDepth 1 (.jarr [.jnull]) = .jarr ([JVal.jnull].map (limitDepth 0)) :=
  ⟨limit_dict_depth_truncation.1 3 (.jnum 7) rfl,
   limit_dict_depth_truncation.2.2.1 [("type", .jstr "integer")] (fun h => List.noConfusion h),
   limit_dict_depth_truncation.2.2.2.1 [.jnum 1] (fun h => List.noConfusion h),
   limit_dict_depth_truncation.2.2.2.2.1 0 [("a", .jnum 1)] (fun h => List.noConfusion h),
   limit_dict_depth_truncation.2.2.2.2.2.1 0 [.jnull] (fun h => List.noConfusion h)⟩


/-! ## `extract_operation_io` inputs (C7)

Modelled from the spec §4.4/`extractOperationIO`: `inputs.properties` is
assembled from declared parameters, URL-template variables not covered by
a declared `path` parameter (synthesized as required strings), and the
flattened request-body properties; declared `path` parameters are always
forced into `inputs.required`. -/

/-- URL-template variables: the substrings between `{` and `}`. -/
def templateVarsGo : List Char → List Char → Bool → List String
  | [], _, _ => []
  | c :: rest, acc, inside =>
    if inside then
      if c = '}' then (⟨acc.reverse⟩ : String) :: templateVarsGo rest [] false
      else templateVarsGo rest (c :: acc) true
    else
      if c = '{' then templateVarsGo rest [] true
      else templateVarsGo rest [] false

/-- The URL-template variables of a path. -/
def templateVars (path : String) : List String :=
  templateVarsGo path.data [] false

/-- The synthesized property for an undeclared URL-template variable. -/
def urlParamEntry : JVal :=
  .jobj [("type", .jstr "string"), ("schema", .jobj [("type", .jstr "string")])]

/-- `spec.paths[path][method]`. -/
def getOp (doc : JVal) (path method : String) : Option JVal :=
  match topField doc "paths" with
  | some pathsObj =>
    match topField pathsObj path with
    | some item => topField item method
    | none => none
  | none => none

/-- The operation's declared parameter list. -/
def paramsOf (op : JVal) : List JVal :=
  match topField op "parameters" with
  | some (.jarr ps) => ps
  | _ => []

/-- A parameter's `name`. -/
def paramName (p : JVal) : Option String :=
  match p with
  | .jobj f =>
    match lookupField f "name" with
    | some (.jstr n) => some n
    | _ => none
  | _ => none

/-- A parameter's `in` location. -/
def paramLoc (p : JVal) : String :=
  match p with
  | .jobj f =>
    match lookupField f "in" with
    | some (.jstr l) => l
    | _ => ""
  | _ => ""

/-- A parameter's declared `required` flag. -/
def paramRequiredFlag (p : JVal) : Bool :=
  match p with
  | .jobj f =>
    match lookupField f "required" with
    | some (.jbool true) => true
    | _ => false
  | _ => false

/-- The `type` string of a schema (default `"string"`). -/
def typeStringOf (v : JVal) : String :=
  match v with
  | .jobj f =>
    match lookupField f "type" with
    | some (.jstr t) => t
    | _ => "string"
  | _ => "string"

/-- The property entry built for a declared parameter:
`{type, description?, schema}` with the schema resolved. -/
def paramEntry (doc : JVal) (p : JVal) : JVal :=
  let rawSchema := match p with
    | .jobj f => (lookupField f "schema").getD (.jobj [("type", .jstr "string")])
    | _ => .jobj [("type", .jstr "string")]
  let resolved := resolveCore doc [] rawSchema
  let desc := match p with
    | .jobj f =>
      match lookupField f "description" with
      | some d => [("description", d)]
      | none => []
    | _ => []
  .jobj ([("type", .jstr (typeStringOf resolved))] ++ desc ++ [("schema", resolved)])

/-- Properties contributed by declared parameters. -/
def extractParamProps (doc : JVal) (params : List JVal) : List (String × JVal) :=
  params.filterMap fun p => (paramName p).map fun n => (n, paramEntry doc p)

/-- Required names contributed by declared parameters: `path` parameters
always, others per their `required` flag. -/
def extractParamRequired (params : List JVal) : List String :=
  params.filterMap fun p => (paramName p).bind fun n =>
    if paramLoc p = "path" ∨ paramRequiredFlag p = true then some n else none

/-- Names of the declared `path` parameters. -/
def declaredPathParamNames (params : List JVal) : List String :=
  params.filterMap fun p => (paramName p).bind fun n =>
    if paramLoc p = "path" then some n else none

/-- The schema of the first supported request-body media type (JSON
preferred, form-encoded fallback). -/
def mediaSchemaFrom : List (String × JVal) → String → Option JVal
  | [], _ => none
  | (k, v) :: rest, pre =>
    if (dropPrefixChars pre.data k.data).isSome then
      match v with
      | .jobj vf => lookupField vf "schema"
      | _ => none
    else mediaSchemaFrom rest pre

/-- The resolved request-body schema of an operation, if any. -/
def bodySchemaOf (doc : JVal) (op : JVal) : Option JVal :=
  match topField op "requestBody" with
  | some rb =>
    match topField rb "content" with
    | some (.jobj cf) =>
      match mediaSchemaFrom cf "application/json" with
      | some sch => some (resolveCore doc [] sch)
      | none =>
        match mediaSchemaFrom cf "application/x-www-form-urlencoded" with
        | some sch => some (resolveCore doc [] sch)
        | none => none
    | _ => none
  | none => none

/-- The request-body properties flattened into `inputs.properties`. -/
def bodyPropsOf (doc : JVal) (op : JVal) : List (String × JVal) :=
  match bodySchemaOf doc op with
  | some (.jobj sf) =>
    match lookupField sf "properties" with
    | some (.jobj pf) => pf
    | _ => []
  | _ => []

/-- The request-body required names merged into `inputs.required`. -/
def bodyRequiredOf (doc : JVal) (op : JVal) : List String :=
  match bodySchemaOf doc op with
  | some (.jobj sf) =>
    match lookupField sf "required" with
    | some (.jarr req) =>
      req.filterMap (fun v => match v with | .jstr s => some s | _ => none)
    | _ => []
  | _ => []

/-- Python `dict` assignment on an association list: replace in place or
append. -/
def insertUpdate (l : List (String × JVal)) (p : String × JVal) :
    List (String × JVal) :=
  if (lookupField l p.1).isSome then setField l p.1 p.2 else l ++ [p]

/-- Modelled from the spec: the `inputs` object of
`extract_operation_io(spec, path, method)` (spec §4.4). -/
def extract_operation_inputs (doc : JVal) (path method : String) : JVal :=
  match getOp doc path method with
  | none => .jobj [("type", .jstr "object"), ("properties", .jobj []),
                   ("required", .jarr [])]
  | some op =>
    let params := paramsOf op
    let urlVars := (templateVars path).filter
      (fun v => !((declaredPathParamNames params).contains v))
    let props := (extractParamProps doc params
        ++ urlVars.map (fun v => (v, urlParamEntry))
        ++ bodyPropsOf doc op).foldl insertUpdate []
    let required := extractParamRequired params ++ urlVars ++ bodyRequiredOf doc op
    .jobj [("type", .jstr "object"), ("properties", .jobj props),
           ("required", .jarr (required.map JVal.jstr))]

/-- The property bound to `x` in an extracted `inputs` object. -/
def inputProp (inputs : JVal) (x : String) : Option JVal :=
  match topField inputs "properties" with
  | some (.jobj pf) => lookupField pf x
  | _ => none

/-- The `required` array of an extracted `inputs` object. -/
def inputRequired (inputs : JVal) : List JVal :=
  match topField inputs "required" with
  | some (.jarr r) => r
  | _ => []


theorem lookupField_append (l1 l2 : List (String × JVal)) (k : String) :
    lookupField (l1 ++ l2) k
      = match lookupField l1 k with
        | some v => some v
        | none => lookupField l2 k := by
  induction l1 with
  | nil => rfl
  | cons p rest ih =>
    rw [List.cons_append, lookupField, lookupField]
    split
    · rfl
    · exact ih

theorem lookupField_none_iff (l : List (String × JVal)) (k : String) :
    lookupField l k = none ↔ ∀ p ∈ l, p.1 ≠ k := by
  induction l with
  | nil => simp [lookupField]
  | cons p rest ih =>
    rw [lookupField]
    constructor
    · intro h q hq
      split at h
      · exact Option.noConfusion h
      · rename_i hne
        rcases List.mem_cons.mp hq with h1 | h1
        · exact h1 ▸ hne
        · exact (ih.mp h) q h1
    · intro h
      rw [if_neg (h p (List.mem_cons_self _ _))]
      exact ih.mpr (fun q hq => h q (List.mem_cons_of_mem _ hq))

theorem lookupField_reverse_none {l : List (String × JVal)} {k : String}
    (h : lookupField l k = none) : lookupField l.reverse k = none := by
  rw [lookupField_none_iff] at h ⊢
  intro p hp
  exact h p (List.mem_reverse.mp hp)

theorem lookupField_map_const {e : JVal} :
    ∀ {vs : List String} {x : String}, x ∈ vs →
      lookupField (vs.map fun v => (v, e)) x = some e
  | [], x, hx => by simp at hx
  | v :: rest, x, hx => by
    rw [List.map_cons, lookupField]
    by_cases hv : v = x
    · rw [if_pos hv]
    · rw [if_neg hv]
      rcases List.mem_cons.mp hx with h1 | h1
      · exact absurd h1.symm hv
      · exact lookupField_map_const h1

theorem lookupField_setField_present : ∀ {l : List (String × JVal)} {k : String} {v : JVal},
    (lookupField l k).isSome = true → lookupField (setField l k v) k = some v
  | [], k, v, h => by simp [lookupField] at h
  | p :: rest, k, v, h => by
    rw [lookupField] at h
    unfold setField
    rw [List.map_cons]
    by_cases hp : p.1 = k
    · rw [if_pos hp, lookupField, if_pos rfl]
    · rw [if_neg hp, lookupField, if_neg hp]
      rw [if_neg hp] at h
      exact lookupField_setField_present h

theorem lookupField_setField_same_ne {l : List (String × JVal)} {k k' : String} {v : JVal}
    (hne : k ≠ k') : lookupField (setField l k v) k' = lookupField l k' := by
  induction l with
  | nil => rfl
  | cons p rest ih =>
    unfold setField
    rw [List.map_cons]
    by_cases hp : p.1 = k
    · rw [if_pos hp, lookupField, lookupField, if_neg hne, if_neg (hp ▸ hne)]
      exact ih
    · rw [if_neg hp, lookupField, lookupField]
      split
      · rfl
      · exact ih

theorem lookupField_insertUpdate (l : List (String × JVal)) (p : String × JVal)
    (x : String) :
    lookupField (insertUpdate l p) x
      = if p.1 = x then some p.2 else lookupField l x := by
  unfold insertUpdate
  by_cases hl : (lookupField l p.1).isSome
  · rw [if_pos hl]
    by_cases hx : p.1 = x
    · rw [if_pos hx, ← hx]
      exact lookupField_setField_present hl
    · rw [if_neg hx]
      exact lookupField_setField_same_ne hx
  · rw [if_neg hl]
    rw [lookupField_append]
    by_cases hx : p.1 = x
    · rw [if_pos hx]
      have hnone : lookupField l x = none := by
        rw [← hx]
        cases hc : lookupField l p.1 with
        | none => rfl
        | some v => rw [hc] at hl; simp at hl
      rw [hnone, lookupField, if_pos hx]
    · rw [if_neg hx]
      cases hc : lookupField l x with
      | none => rw [lookupField, if_neg hx]; rfl
      | some v => rfl

theorem lookupField_foldl_insertUpdate :
    ∀ (items acc : List (String × JVal)) (x : String),
      lookupField (items.foldl insertUpdate acc) x
        = match lookupField items.reverse x with
          | some v => some v
          | none => lookupField acc x
  | [], acc, x => rfl
  | p :: rest, acc, x => by
    rw [List.foldl_cons, lookupField_foldl_insertUpdate rest _ x]
    rw [List.reverse_cons, lookupField_append]
    cases hc : lookupField rest.reverse x with
    | some v => rfl
    | none =>
      rw [lookupField_insertUpdate]
      rw [lookupField]
      by_cases hx : p.1 = x
      · rw [if_pos hx, if_pos hx]
      · rw [if_neg hx, if_neg hx, lookupField]

/-- **C7.** `extract_operation_io` inputs: every URL-template variable `x`
not covered by a declared `path` parameter (and not overridden by a
same-named body property) is synthesized as
`{"type": "string", "schema": {"type": "string"}}` and placed in
`inputs.required`; and every declared `path` parameter is placed in
`inputs.required` regardless of its declared `required` flag. -/
theorem extract_operation_io_url_and_path_params :
    (∀ (doc : JVal) (path method : String) (op : JVal) (x : String),
       getOp doc path method = some op →
       x ∈ templateVars path →
       ((declaredPathParamNames (paramsOf op)).contains x) = false →
       lookupField (bodyPropsOf doc op) x = none →
       inputProp (extract_operation_inputs doc path method) x = some urlParamEntry ∧
       JVal.jstr x ∈ inputRequired (extract_operation_inputs doc path method)) ∧
    (∀ (doc : JVal) (path method : String) (op p : JVal) (n : String),
       getOp doc path method = some op →
       p ∈ paramsOf op →
       paramName p = some n →
       paramLoc p = "path" →
       JVal.jstr n ∈ inputRequired (extract_operation_inputs doc path method)) := by
  have hreq : ∀ (doc : JVal) (path method : String) (op : JVal),
      getOp doc path method = some op →
      inputRequired (extract_operation_inputs doc path method)
        = ((extractParamRequired (paramsOf op)
            ++ (templateVars path).filter
                (fun v => !((declaredPathParamNames (paramsOf op)).contains v))
            ++ bodyRequiredOf doc op).map JVal.jstr) := by
    intro doc path method op hop
    rw [extract_operation_inputs, hop]
    rfl
  have hprop : ∀ (doc : JVal) (path method : String) (op : JVal) (x : String),
      getOp doc path method = some op →
      inputProp (extract_operation_inputs doc path method) x
        = lookupField ((extractParamProps doc (paramsOf op)
            ++ ((templateVars path).filter
                (fun v => !((declaredPathParamNames (paramsOf op)).contains v))).map
                  (fun v => (v, urlParamEntry))
            ++ bodyPropsOf doc op).foldl insertUpdate []) x := by
    intro doc path method op x hop
    rw [extract_operation_inputs, hop]
    rfl
  constructor
  · intro doc path method op x hop hx hnc hbody
    have hurl : x ∈ (templateVars path).filter
        (fun v => !((declaredPathParamNames (paramsOf op)).contains v)) := by
      rw [List.mem_filter]
      exact ⟨hx, by rw [hnc]; rfl⟩
    constructor
    · rw [hprop doc path method op x hop]
      rw [lookupField_foldl_insertUpdate]
      rw [List.reverse_append, List.reverse_append, lookupField_append]
      rw [lookupField_reverse_none hbody]
      rw [lookupField_append]
      rw [← List.map_reverse, lookupField_map_const (List.mem_reverse.mpr hurl)]
    · rw [hreq doc path method op hop]
      rw [List.map_append, List.map_append]
      refine List.mem_append.mpr (Or.inl (List.mem_append.mpr (Or.inr ?_)))
      exact List.mem_map.mpr ⟨x, hurl, rfl⟩
  · intro doc path method op p n hop hp hname hloc
    rw [hreq doc path method op hop]
    rw [List.map_append, List.map_append]
    refine List.mem_append.mpr (Or.inl (List.mem_append.mpr (Or.inl ?_)))
    refine List.mem_map.mpr ⟨n, ?_, rfl⟩
    refine List.mem_filterMap.mpr ⟨p, hp, ?_⟩
    rw [hname]
    show (if paramLoc p = "path" ∨ paramRequiredFlag p = true then some n else none) = some n
    rw [if_pos (Or.inl hloc)]

/-- Witness for **C7**: the widget spec of `test_extracts_implicit_url_param`
(`/widgets/{widget_id}` with no declared parameter) and the gadget spec of
`test_extracts_explicit_url_param` (declared `path` parameter). -/
theorem extract_operation_io_url_and_path_params_witness :
    (inputProp (extract_operation_inputs
        (.jobj [("paths", .jobj [("/widgets/{widget_id}", .jobj [("get", .jobj [])])])])
        "/widgets/{widget_id}" "get") "widget_id" = some urlParamEntry ∧
     JVal.jstr "widget_id" ∈ inputRequired (extract_operation_inputs
        (.jobj [("paths", .jobj [("/widgets/{widget_id}", .jobj [("get", .jobj [])])])])
        "/widgets/{widget_id}" "get")) ∧
    JVal.jstr "gadget_id" ∈ inputRequired (extract_operation_inputs
        (.jobj [("paths", .jobj [("/gadgets/{gadget_id}", .jobj [("get", .jobj [
          ("parameters", .jarr [.jobj [
            ("name", .jstr "gadget_id"),
            ("in", .jstr "path"),
            ("required", .jbool true),
            ("schema", .jobj [("type", .jstr "integer")])]])])])])])
        "/gadgets/{gadget_id}" "get") :=
  ⟨extract_operation_io_url_and_path_params.1
      (.jobj [("paths", .jobj [("/widgets/{widget_id}", .jobj [("get", .jobj [])])])])
      "/widgets/{widget_id}" "get" (.jobj []) "widget_id" rfl
      (by simp [templateVars, templateVarsGo])
      rfl rfl,
   extract_operation_io_url_and_path_params.2
      (.jobj [("paths", .jobj [("/gadgets/{gadget_id}", .jobj [("get", .jobj [
          ("parameters", .jarr [.jobj [
            ("name", .jstr "gadget_id"),
            ("in", .jstr "path"),
            ("required", .jbool true),
            ("schema", .jobj [("type", .jstr "integer")])]])])])])])
      "/gadgets/{gadget_id}" "get"
      (.jobj [
          ("parameters", .jarr [.jobj [
            ("name", .jstr "gadget_id"),
            ("in", .jstr "path"),
            ("required", .jbool true),
            ("schema", .jobj [("type", .jstr "integer")])]])])
      (.jobj [
            ("name", .jstr "gadget_id"),
            ("in", .jstr "path"),
            ("required", .jbool true),
            ("schema", .jobj [("type", .jstr "integer")])])
      "gadget_id" rfl (by simp [paramsOf, topField, lookupField])
      rfl rfl⟩

/- ### Expression evaluator: regex transform pipeline (spec 4.2).
Modelled from the spec: the evaluator source is absent from src/ (only its test
suite is present), so apply_regex_transforms is modelled from spec section 4.2
and pinned by tests/test_regex_transforms.py. The model covers the regex
features those transforms use: literal characters, escaped literals, the dot
wildcard, negated character classes, greedy and lazy star/plus over one-character
atoms, plain and named capture groups, and the end anchor. -/

/-- Modelled from the spec: a one-character matcher (a literal, the dot
wildcard, or a character class with an optional negation flag). -/
inductive CharClass where
  | anyChar : CharClass
  | litChar : Char → CharClass
  | classSet : List Char → Bool → CharClass

def matchesCC : CharClass → Char → Bool
  | .anyChar, _ => true
  | .litChar c, d => c == d
  | .classSet cs neg, d => if neg then !(cs.contains d) else cs.contains d

/-- Modelled from the spec: one element of a compiled pattern. Groups carry
their 1-based number (Python numbers all groups, named or not, by opening
parenthesis order) and an optional name. -/
inductive RItem where
  | rchar : CharClass → RItem
  | rstar : CharClass → Bool → RItem
  | rplus : CharClass → Bool → RItem
  | rgroup : Nat → Option String → List RItem → RItem
  | rend : RItem

/-- Captured groups of one match: (group number, optional group name, text). -/
abbrev Caps := List (Nat × Option String × List Char)

/-- Modelled from the spec: backtracking matcher. Returns every way the item
list can match a prefix of the input as (remaining input, captures) pairs, in
regex priority order: greedy quantifiers longest first, lazy ones shortest
first. The fuel argument only bounds the recursion on the pattern structure
(every recursive call is on a pattern of strictly smaller size), so any fuel
above the total node count of the pattern is enough; it keeps the definition
structurally recursive and hence computable inside the kernel. -/
def matchSeqAll : Nat → List RItem → List Char → Caps → List (List Char × Caps)
  | 0, _, _, _ => []
  | _ + 1, [], s, caps => [(s, caps)]
  | fuel + 1, .rchar cc :: rest, s, caps =>
    match s with
    | [] => []
    | c :: s2 => if matchesCC cc c then matchSeqAll fuel rest s2 caps else []
  | fuel + 1, .rstar cc lz :: rest, s, caps =>
    let maxN := (s.takeWhile (matchesCC cc)).length
    let counts := if lz then List.range (maxN + 1) else (List.range (maxN + 1)).reverse
    counts.bind (fun k => matchSeqAll fuel rest (s.drop k) caps)
  | fuel + 1, .rplus cc lz :: rest, s, caps =>
    let maxN := (s.takeWhile (matchesCC cc)).length
    let counts :=
      (if lz then List.range (maxN + 1) else (List.range (maxN + 1)).reverse).filter
        (fun k => k != 0)
    counts.bind (fun k => matchSeqAll fuel rest (s.drop k) caps)
  | fuel + 1, .rgroup i nm gitems :: rest, s, caps =>
    (matchSeqAll fuel gitems s caps).bind (fun p =>
      matchSeqAll fuel rest p.1 (p.2 ++ [(i, nm, s.take (s.length - p.1.length))]))
  | fuel + 1, .rend :: rest, s, caps =>
    if s.isEmpty then matchSeqAll fuel rest s caps else []

/-- Modelled from the spec: re.search semantics — try to match at each start
position, leftmost first; the first position with a match wins. The first fuel
bounds the walk over start positions (one unit per position, so any value
above the input length visits them all); mfuel is the matcher fuel handed to
matchSeqAll at every position. -/
def searchFromFuel (mfuel : Nat) : Nat → List RItem → List Char → Option Caps
  | 0, _, _ => none
  | _ + 1, items, [] =>
    match matchSeqAll mfuel items [] [] with
    | p :: _ => some p.2
    | [] => none
  | fuel + 1, items, c :: s2 =>
    match matchSeqAll mfuel items (c :: s2) [] with
    | p :: _ => some p.2
    | [] => searchFromFuel mfuel fuel items s2

def searchFrom (mfuel : Nat) (items : List RItem) (s : List Char) : Option Caps :=
  searchFromFuel mfuel (s.length + 1) items s

def findCapNum : Caps → Nat → Option (List Char)
  | [], _ => none
  | (i, _, t) :: rest, n => if i == n then some t else findCapNum rest n

def findCapName : Caps → String → Option (List Char)
  | [], _ => none
  | (_, some nm, t) :: rest, n => if nm == n then some t else findCapName rest n
  | (_, none, _) :: rest, n => findCapName rest n

/-- Reads a group name up to the closing angle bracket, returning the name and
the remaining characters. -/
def parseGroupName : List Char → Option (List Char × List Char)
  | [] => none
  | c :: rest =>
    if c == '>' then some ([], rest)
    else (parseGroupName rest).map (fun p => (c :: p.1, p.2))

/-- Modelled from the spec: result-template substitution. A named reference
(backslash, then a name in angle brackets) and a numbered reference (backslash,
then a digit) are replaced by the matched group text; an escaped reference
(double backslash before the name or digit) is not substituted and is unescaped
to a single backslash followed by the literal reference text. The fuel bounds
the recursion (each step consumes at least one character), so any fuel above
the template length computes the full substitution. -/
def substTemplate : Nat → Caps → List Char → List Char
  | 0, _, _ => []
  | _ + 1, _, [] => []
  | fuel + 1, caps, c :: rest =>
    if c == '\\' then
      match rest with
      | [] => ['\\']
      | d :: rest2 =>
        if d == '\\' then
          match rest2 with
          | '<' :: rest3 =>
            match parseGroupName rest3 with
            | some (nm, rest4) => '\\' :: '<' :: (nm ++ '>' :: substTemplate fuel caps rest4)
            | none => '\\' :: '\\' :: substTemplate fuel caps rest2
          | e :: rest3 =>
            if e.isDigit then '\\' :: e :: substTemplate fuel caps rest3
            else '\\' :: '\\' :: substTemplate fuel caps rest2
          | [] => ['\\', '\\']
        else if d == '<' then
          match parseGroupName rest2 with
          | some (nm, rest3) =>
            ((findCapName caps (String.mk nm)).getD []) ++ substTemplate fuel caps rest3
          | none => '\\' :: substTemplate fuel caps rest
        else if d.isDigit then
          ((findCapNum caps (d.toNat - 48)).getD []) ++ substTemplate fuel caps rest2
        else '\\' :: d :: substTemplate fuel caps rest2
    else c :: substTemplate fuel caps rest

/-- Reads a character-class body up to the closing square bracket. -/
def parseClassBody : List Char → Option (List Char × List Char)
  | [] => none
  | c :: rest =>
    if c == ']' then some ([], rest)
    else (parseClassBody rest).map (fun p => (c :: p.1, p.2))

/-- Attaches a star or plus quantifier (with an optional lazy marker) to a
one-character atom, or leaves it plain. -/
def applyQuantifier (cc : CharClass) : List Char → (RItem × List Char)
  | '*' :: '?' :: r => (.rstar cc true, r)
  | '*' :: r => (.rstar cc false, r)
  | '+' :: '?' :: r => (.rplus cc true, r)
  | '+' :: r => (.rplus cc false, r)
  | r => (.rchar cc, r)

/-- Modelled from the spec: recursive-descent pattern compiler. Returns the
compiled items, the unconsumed characters (a closing parenthesis is left for
the caller of a group), and the next free group number. Patterns outside the
modelled fragment (for example a quantified group) fail to compile. The fuel
bounds the recursion; each recursive call consumes at least one character. -/
def parseSeq : Nat → List Char → Nat → Option (List RItem × List Char × Nat)
  | 0, _, _ => none
  | _ + 1, [], g => some ([], [], g)
  | fuel + 1, c :: rest, g =>
    if c == ')' then some ([], c :: rest, g)
    else if c == '(' then
      match
        (match rest with
         | '?' :: 'P' :: '<' :: r2 =>
           (parseGroupName r2).map (fun p => (some (String.mk p.1), p.2))
         | _ => some ((none : Option String), rest)) with
      | none => none
      | some (nm, r2) =>
        match parseSeq fuel r2 (g + 1) with
        | none => none
        | some (gitems, r3, g2) =>
          match r3 with
          | ')' :: '*' :: _ => none
          | ')' :: '+' :: _ => none
          | ')' :: r4 =>
            match parseSeq fuel r4 g2 with
            | none => none
            | some (items, r5, g3) => some (.rgroup g nm gitems :: items, r5, g3)
          | _ => none
    else if c == '$' then
      match parseSeq fuel rest g with
      | none => none
      | some (items, r2, g2) => some (.rend :: items, r2, g2)
    else
      match
        (if c == '[' then
          match rest with
          | '^' :: r2 => (parseClassBody r2).map (fun p => (CharClass.classSet p.1 true, p.2))
          | _ => (parseClassBody rest).map (fun p => (CharClass.classSet p.1 false, p.2))
        else if c == '.' then some (CharClass.anyChar, rest)
        else if c == '\\' then
          match rest with
          | d :: r2 => some (CharClass.litChar d, r2)
          | [] => none
        else some (CharClass.litChar c, rest)) with
      | none => none
      | some (cc, r2) =>
        match applyQuantifier cc r2 with
        | (item, r3) =>
          match parseSeq fuel r3 g with
          | none => none
          | some (items, r4, g2) => some (item :: items, r4, g2)

def parseRegex (pattern : String) : Option (List RItem) :=
  match parseSeq (pattern.length + 1) pattern.data 1 with
  | some (items, [], _) => some items
  | _ => none

/-- Modelled from the spec: one transform entry, {pattern, result}. -/
structure RegexTransform where
  pattern : String
  result : String

/-- Modelled from the spec: one pipeline stage. The value has already been
coerced to its string form; a pattern outside the modelled regex fragment or a
non-match passes the value through unchanged; on a match the output is the
result template with group references substituted. -/
def applyOneTransform (value : String) (t : RegexTransform) : String :=
  match parseRegex t.pattern with
  | none => value
  | some items =>
    match searchFrom (2 * t.pattern.length + 2) items value.data with
    | none => value
    | some caps => String.mk (substTemplate (t.result.length + 1) caps t.result.data)

/-- Modelled from the spec: transforms apply strictly in array order, each
consuming the previous stage's string output. -/
def apply_regex_transforms (value : String) (transforms : List RegexTransform) : String :=
  transforms.foldl applyOneTransform value

/-- C6: apply_regex_transforms applies its transforms strictly in array order,
each consuming the previous stage's string output (splitting the transform
array anywhere factors the pipeline sequentially); a named group reference and
a numbered reference in the result template are substituted with matched text,
while escaped references are left unsubstituted as literals. Concretely, on
"https://example.com/uploads/files/document.pdf": the basename pattern yields
"document.pdf"; chaining the suffix-inserting transform yields
"document_processed.pdf"; the numbered-reference template substitutes groups 1
and 4 but leaves the escaped reference as a literal; and the named-reference
template substitutes the group but leaves the escaped named reference as a
literal. Expected strings follow tests/test_regex_transforms.py. -/
theorem apply_regex_transforms_pipeline_and_escapes :
    (∀ (v : String) (ts1 ts2 : List RegexTransform),
      apply_regex_transforms v (ts1 ++ ts2) =
        apply_regex_transforms (apply_regex_transforms v ts1) ts2) ∧
    apply_regex_transforms "https://example.com/uploads/files/document.pdf"
      [⟨".*/(?P<basename>[^/]+)$", "\\<basename>"⟩] = "document.pdf" ∧
    apply_regex_transforms "https://example.com/uploads/files/document.pdf"
      [⟨".*/(?P<basename>[^/]+)$", "\\<basename>"⟩,
       ⟨"(?P<name>.*?)\\.(?P<ext>[^.]+)$", "\\<name>_processed.\\<ext>"⟩] =
      "document_processed.pdf" ∧
    apply_regex_transforms "https://example.com/uploads/files/document.pdf"
      [⟨"https://([^/]+)/([^/]+)/([^/]+)/(.+)",
        "Domain: \\1, Literal: \\\\1, File: \\4"⟩] =
      "Domain: example.com, Literal: \\1, File: document.pdf" ∧
    apply_regex_transforms "https://example.com/uploads/files/document.pdf"
      [⟨".*/(?P<basename>[^/]+)$", "File: \\<basename>, Literal: \\\\<basename>"⟩] =
      "File: document.pdf, Literal: \\<basename>" := by
  refine ⟨?_, ?_, ?_, ?_, ?_⟩
  · intro v ts1 ts2
    simp [apply_regex_transforms, List.foldl_append]
  · decide
  · decide
  · decide
  · decide

/- ### Workflow engine (spec 4.3) and expression evaluator (spec 4.2).
Modelled from the spec: the engine and evaluator sources are absent from src/
(only tests are present), so the state machine and the runtime-expression
grammar are modelled from spec sections 3, 4.2 and 4.3 and pinned by
tests/test_arazzo_runner.py. -/

/-- Modelled from the spec: run status, spec section 3
(PENDING, RUNNING, STEP_COMPLETE, WORKFLOW_COMPLETE, WORKFLOW_FAILED). -/
inductive RunStatus where
  | pending : RunStatus
  | running : RunStatus
  | stepComplete : RunStatus
  | workflowComplete : RunStatus
  | workflowFailed : RunStatus
deriving DecidableEq

/-- Modelled from the spec: the mutable record of one workflow run. -/
structure ExecState where
  workflowId : String
  inputs : List (String × JVal)
  stepOutputs : List (String × List (String × JVal))
  workflowOutputs : List (String × JVal)
  status : RunStatus
  currentStepIndex : Nat

/-- Modelled from the spec: one step of a workflow — id, operation reference,
parameter bindings (name, location, value expression), optional request body
(content type, payload template), success criteria, output expressions. -/
structure StepDef where
  stepId : String
  operationId : String
  parameters : List (String × String × String)
  requestBody : Option (String × JVal)
  successCriteria : List String
  outputs : List (String × String)

/-- Modelled from the spec: a workflow — ordered steps and the workflow-level
output-expression mapping. -/
structure WorkflowDef where
  workflowId : String
  steps : List StepDef
  outputs : List (String × String)

/-- Modelled from the spec: a resolved API operation (operationId, HTTP
method, concrete URL). -/
structure ApiOperation where
  operationId : String
  method : String
  url : String

/-- An outgoing HTTP request as handed to the transport collaborator. -/
structure HttpRequest where
  method : String
  url : String
  headers : List (String × String)
  queryParams : List (String × String)
  body : Option JVal

/-- A transport response: status code and decoded JSON body. -/
structure HttpResponse where
  statusCode : Nat
  body : JVal

/-- Generic association-list lookup by string key. -/
def lookupAssoc {α : Type} : List (String × α) → String → Option α
  | [], _ => none
  | (k, v) :: rest, key => if k == key then some v else lookupAssoc rest key

/-- Replaces the value bound to a key, leaving other bindings untouched. -/
def updateAssoc {α : Type} : List (String × α) → String → α → List (String × α)
  | [], _, _ => []
  | (k, v) :: rest, key, nv =>
    if k == key then (k, nv) :: rest else (k, v) :: updateAssoc rest key nv

/-- Splits a character list on a separator (Python str.split semantics). -/
def splitChar (sep : Char) : List Char → List (List Char)
  | [] => [[]]
  | c :: rest =>
    let r := splitChar sep rest
    if c == sep then [] :: r
    else
      match r with
      | g :: gs => (c :: g) :: gs
      | [] => [[c]]

/-- Walks a dotted body path through a JSON value, one field per segment;
spec 4.2 rewrites dotted access to pointer form, and the two are equivalent. -/
def walkPath : JVal → List (List Char) → Option JVal
  | v, [] => some v
  | .jobj fs, n :: rest =>
    match lookupField fs (String.mk n) with
    | some v => walkPath v rest
    | none => none
  | _, _ :: _ => none

/-- Modelled from the spec: evaluateExpression over the grammar of spec 4.2 —
inputs references, step output references, response body access (dotted path
or the bare container) and the status code; anything else, or a dangling
reference, is absent (none), a deliberate soft failure. -/
def evalExpr (st : ExecState) (resp : Option HttpResponse) (expr : String) : Option JVal :=
  match splitChar '.' expr.data with
  | [] => none
  | [p] =>
    if p == "$statusCode".data then resp.map (fun r => .jnum (Int.ofNat r.statusCode))
    else none
  | p :: rest =>
    if p == "$inputs".data then
      match rest with
      | [n] => lookupAssoc st.inputs (String.mk n)
      | _ => none
    else if p == "$steps".data then
      match rest with
      | [sid, o, n] =>
        if o == "outputs".data then
          match lookupAssoc st.stepOutputs (String.mk sid) with
          | some outs => lookupAssoc outs (String.mk n)
          | none => none
        else none
      | _ => none
    else if p == "$response".data then
      match rest, resp with
      | c :: path, some r => if c == "body".data then walkPath r.body path else none
      | _, none => none
      | [], _ => none
    else none

/-- String form of a value, Python str semantics for the scalar cases that
parameter interpolation meets (containers are not modelled). -/
def jvalToString : JVal → String
  | .jstr s => s
  | .jnum n => toString n
  | .jbool true => "True"
  | .jbool false => "False"
  | .jnull => "None"
  | .jarr _ => ""
  | .jobj _ => ""

/-- Joins token lists back with single spaces. -/
def joinSpace : List (List Char) → List Char
  | [] => []
  | [x] => x
  | x :: rest => x ++ ' ' :: joinSpace rest

/-- Modelled from the spec: materializing one parameter value. A value that is
itself a recognized expression evaluates to the referenced value; otherwise
each whitespace-separated token that is a recognized expression is replaced by
its string form, so a header template such as a Bearer prefix followed by a
step-output reference interpolates to the concrete credential string. -/
def evalParamValue (st : ExecState) (v : String) : JVal :=
  match evalExpr st none v with
  | some j => j
  | none =>
    .jstr (String.mk (joinSpace ((splitChar ' ' v.data).map (fun t =>
      match evalExpr st none (String.mk t) with
      | some j => (jvalToString j).data
      | none => t))))

/-- Modelled from the spec: request-payload substitution — expression
references are substituted recursively through nested payload structures. The
fuel bounds the recursion depth; any fuel at least the payload depth computes
the full substitution. -/
def substPayload : Nat → ExecState → JVal → JVal
  | 0, _, v => v
  | fuel + 1, st, .jobj fs => .jobj (fs.map (fun p => (p.1, substPayload fuel st p.2)))
  | fuel + 1, st, .jarr xs => .jarr (xs.map (substPayload fuel st))
  | _, st, .jstr s =>
    match evalExpr st none s with
    | some j => j
    | none => .jstr s
  | _, _, v => v

/-- Depth fuel for payload substitution, ample for every payload the engine
meets here. -/
def payloadDepthFuel : Nat := 32

/-- Parses a decimal natural-number literal. -/
def parseNatLit : List Char → Option Nat
  | [] => none
  | l => go l 0
where
  go : List Char → Nat → Option Nat
    | [], acc => some acc
    | c :: rest, acc =>
      if c.isDigit then go rest (acc * 10 + (c.toNat - 48)) else none

/-- Modelled from the spec: one success criterion, an expression, an operator
and a literal separated by spaces; the equality operator compares the
evaluated expression with the numeric or string literal. -/
def checkCondition (st : ExecState) (resp : HttpResponse) (cond : String) : Bool :=
  match splitChar ' ' cond.data with
  | [e, o, l] =>
    if o == "==".data then
      match evalExpr st (some resp) (String.mk e) with
      | some (.jnum n) =>
        match parseNatLit l with
        | some m => n == Int.ofNat m
        | none => false
      | some (.jstr s) => s.data == l
      | _ => false
    else false
  | _ => false

/-- Modelled from the spec: the engine — immutable workflow and operation
registries plus the process-wide run registry (executionId to ExecState). -/
structure Engine where
  workflows : List WorkflowDef
  operations : List ApiOperation
  runs : List (String × ExecState)

/-- Modelled from the spec: startWorkflow validates the workflow id, creates a
fresh pending ExecState and registers it under the caller-supplied fresh
execution id. -/
def startWorkflow (e : Engine) (wid : String) (inputs : List (String × JVal))
    (eid : String) : Option Engine :=
  match lookupAssoc (e.workflows.map (fun w => (w.workflowId, w))) wid with
  | none => none
  | some _ =>
    some ⟨e.workflows, e.operations,
      e.runs ++ [(eid, ⟨wid, inputs, [], [], .pending, 0⟩)]⟩

/-- Result of one executeNextStep call, reported at the call boundary. -/
inductive StepResult where
  | errorNotFound : StepResult
  | errorTerminal : StepResult
  | stepDone : String → StepResult
  | workflowDone : List (String × JVal) → StepResult
  | stepFailed : String → StepResult

/-- Modelled from the spec: executeNextStep (spec 4.3). An unknown id or a
terminal run fails at the call boundary without touching any state. Otherwise
the next step's operation is resolved, parameters and body are materialized
against current state, the request goes through the injected transport, the
success criteria gate the outcome, step outputs are written once, and the step
pointer advances; after the last step the workflow-level outputs are evaluated
over the full stepOutputs tree, the run becomes WORKFLOW_COMPLETE and the
outputs are returned. The issued request (if any) is returned for observation
alongside the updated engine and the result. -/
def executeNextStep (e : Engine) (transport : HttpRequest → HttpResponse)
    (eid : String) : Engine × StepResult × Option HttpRequest :=
  match lookupAssoc e.runs eid with
  | none => (e, .errorNotFound, none)
  | some st =>
    if st.status = .workflowComplete ∨ st.status = .workflowFailed then
      (e, .errorTerminal, none)
    else
      match lookupAssoc (e.workflows.map (fun w => (w.workflowId, w))) st.workflowId with
      | none => (e, .errorNotFound, none)
      | some wf =>
        match wf.steps.drop st.currentStepIndex with
        | [] => (e, .errorNotFound, none)
        | step :: remaining =>
          match lookupAssoc (e.operations.map (fun op => (op.operationId, op)))
              step.operationId with
          | none => (e, .errorNotFound, none)
          | some op =>
            let headers := (step.parameters.filter (fun p => p.2.1 == "header")).map
              (fun p => (p.1, jvalToString (evalParamValue st p.2.2)))
            let query := (step.parameters.filter (fun p => p.2.1 == "query")).map
              (fun p => (p.1, jvalToString (evalParamValue st p.2.2)))
            let body := step.requestBody.map
              (fun rb => substPayload payloadDepthFuel st rb.2)
            let req : HttpRequest := ⟨op.method, op.url, headers, query, body⟩
            let resp := transport req
            if step.successCriteria.all (checkCondition st resp) then
              let outs := step.outputs.map
                (fun p => (p.1, (evalExpr st (some resp) p.2).getD .jnull))
              let stepsDone := st.stepOutputs ++ [(step.stepId, outs)]
              match remaining with
              | _ :: _ =>
                let st2 : ExecState :=
                  ⟨st.workflowId, st.inputs, stepsDone, st.workflowOutputs,
                    .stepComplete, st.currentStepIndex + 1⟩
                (⟨e.workflows, e.operations, updateAssoc e.runs eid st2⟩,
                  .stepDone step.stepId, some req)
              | [] =>
                let stFull : ExecState :=
                  ⟨st.workflowId, st.inputs, stepsDone, st.workflowOutputs,
                    .running, st.currentStepIndex + 1⟩
                let wouts := wf.outputs.map
                  (fun p => (p.1, (evalExpr stFull none p.2).getD .jnull))
                let st2 : ExecState :=
                  ⟨st.workflowId, st.inputs, stepsDone, wouts,
                    .workflowComplete, st.currentStepIndex + 1⟩
                (⟨e.workflows, e.operations, updateAssoc e.runs eid st2⟩,
                  .workflowDone wouts, some req)
            else
              let st2 : ExecState :=
                ⟨st.workflowId, st.inputs, st.stepOutputs, st.workflowOutputs,
                  .workflowFailed, st.currentStepIndex⟩
              (⟨e.workflows, e.operations, updateAssoc e.runs eid st2⟩,
                .stepFailed step.stepId, some req)

/- ### Claim C4: two-step workflow end to end.
The fixture mirrors tests/test_arazzo_runner.py: a login step whose outputs
bind token to the response body, and a data step sending the bearer header
built from that output, against a transport mock returning the canned
responses. -/

def loginStepDef : StepDef :=
  ⟨"loginStep", "loginUser", [],
    some ("application/json",
      .jobj [("username", .jstr "$inputs.username"),
             ("password", .jstr "$inputs.password")]),
    ["$statusCode == 200"],
    [("token", "$response.body.token")]⟩

def getDataStepDef : StepDef :=
  ⟨"getDataStep", "getData",
    [("filter", "query", "$inputs.filter"),
     ("Authorization", "header", "Bearer $steps.loginStep.outputs.token")],
    none,
    ["$statusCode == 200"],
    [("data", "$response.body.items")]⟩

def twoStepWorkflow : WorkflowDef :=
  ⟨"testWorkflow", [loginStepDef, getDataStepDef],
    [("result", "$steps.getDataStep.outputs.data")]⟩

def twoStepEngine : Engine :=
  ⟨[twoStepWorkflow],
    [⟨"loginUser", "post", "https://api.example.com/v1/login"⟩,
     ⟨"getData", "get", "https://api.example.com/v1/data"⟩],
    []⟩

def twoStepItems : JVal :=
  .jarr [.jobj [("id", .jnum 1)], .jobj [("id", .jnum 2)]]

/-- Transport mock of the test: a token for the login URL, the item list for
the data URL. -/
def mockTransport : HttpRequest → HttpResponse := fun req =>
  if req.url == "https://api.example.com/v1/login" then
    ⟨200, .jobj [("token", .jstr "test-token-123")]⟩
  else if req.url == "https://api.example.com/v1/data" then
    ⟨200, .jobj [("items", twoStepItems)]⟩
  else ⟨404, .jnull⟩

def twoStepStarted : Engine :=
  (startWorkflow twoStepEngine "testWorkflow"
    [("username", .jstr "testuser"), ("password", .jstr "password123"),
     ("filter", .jstr "test")] "exec-1").getD twoStepEngine

def twoStepCall1 : Engine × StepResult × Option HttpRequest :=
  executeNextStep twoStepStarted mockTransport "exec-1"

def twoStepCall2 : Engine × StepResult × Option HttpRequest :=
  executeNextStep twoStepCall1.1 mockTransport "exec-1"

/-- C4: in the two-step workflow where step one binds outputs.token to
$response.body.token and step two sends header Authorization built from
$steps.loginStep.outputs.token, run against the transport mock returning
{"token": "test-token-123"} for step one: the first call completes the login
step and issues the login POST with the substituted JSON payload; the second
request carries Authorization equal to "Bearer test-token-123" (together with
the query parameter from the inputs); and the final executeNextStep call
returns WORKFLOW_COMPLETE with workflowOutputs matching the workflow's
declared output expression, the run ending in the terminal complete status. -/
theorem execute_workflow_two_step_end_to_end :
    twoStepCall1.2.1 = .stepDone "loginStep" ∧
    twoStepCall1.2.2 = some ⟨"post", "https://api.example.com/v1/login", [], [],
      some (.jobj [("username", .jstr "testuser"),
                   ("password", .jstr "password123")])⟩ ∧
    twoStepCall2.2.2 = some ⟨"get", "https://api.example.com/v1/data",
      [("Authorization", "Bearer test-token-123")], [("filter", "test")], none⟩ ∧
    twoStepCall2.2.1 = .workflowDone [("result", twoStepItems)] ∧
    (lookupAssoc twoStepCall2.1.runs "exec-1").map (fun st => st.status) =
      some RunStatus.workflowComplete ∧
    (lookupAssoc twoStepCall2.1.runs "exec-1").map (fun st => st.workflowOutputs) =
      some [("result", twoStepItems)] :=
  ⟨rfl, rfl, rfl, rfl, rfl, rfl⟩

/-- C5: re-invoking executeNextStep on a run already in a terminal status
(WORKFLOW_COMPLETE or WORKFLOW_FAILED) fails with the terminal-state error at
the call boundary, leaves the whole engine — in particular the run registry
and the run's stepOutputs — untouched, and issues no request. -/
theorem execute_next_step_terminal_is_error (e : Engine)
    (transport : HttpRequest → HttpResponse) (eid : String) (st : ExecState)
    (hfind : lookupAssoc e.runs eid = some st)
    (hterm : st.status = .workflowComplete ∨ st.status = .workflowFailed) :
    executeNextStep e transport eid = (e, .errorTerminal, none) ∧
    (executeNextStep e transport eid).1.runs = e.runs ∧
    (lookupAssoc (executeNextStep e transport eid).1.runs eid).map
        (fun s => s.stepOutputs) = some st.stepOutputs := by
  have h : executeNextStep e transport eid = (e, .errorTerminal, none) := by
    rcases hterm with h1 | h1 <;> simp [executeNextStep, hfind, h1]
  refine ⟨h, by rw [h], ?_⟩
  rw [h]
  simp [hfind]

def terminalState : ExecState :=
  ⟨"testWorkflow", [], [("loginStep", [("token", .jstr "test-token-123")])], [],
    .workflowComplete, 2⟩

def terminalEngine : Engine :=
  ⟨[twoStepWorkflow], [], [("exec-done", terminalState)]⟩

theorem execute_next_step_terminal_is_error_witness :
    executeNextStep terminalEngine (fun _ => ⟨200, .jnull⟩) "exec-done" =
      (terminalEngine, .errorTerminal, none) ∧
    (lookupAssoc
        (executeNextStep terminalEngine (fun _ => ⟨200, .jnull⟩) "exec-done").1.runs
        "exec-done").map (fun s => s.stepOutputs) =
      some [("loginStep", [("token", .jstr "test-token-123")])] :=
  ⟨(execute_next_step_terminal_is_error terminalEngine (fun _ => ⟨200, .jnull⟩)
      "exec-done" terminalState rfl (Or.inl rfl)).1,
   (execute_next_step_terminal_is_error terminalEngine (fun _ => ⟨200, .jnull⟩)
      "exec-done" terminalState rfl (Or.inl rfl)).2.2⟩

end Arazzo
